import Mathlib

/-!
# Verification of the finance-dashboard monthly-period resolution core

Shallow embedding of `src/lib/database.ts` (and the visibility-map
construction of `manage-subcategories-modal.tsx`). The remote relational
store is modelled as an explicit `DB` state (lists of rows per table);
stateful operations take a `DB` and return their result together with the
updated `DB`. Read-only operations (plain selects) take a `DB` and return
data only, which makes their write-freedom part of the embedding.

Modelling conventions:
* Numeric amounts are embedded as exact rationals (`ℚ`).
* Row ids generated by the store are modelled by a `nextId` counter.
* `user_id` columns are omitted: every query in the source is implicitly
  scoped to the current user, so the `DB` is that user's data.
* PostgREST ordering is modelled with `List.insertionSort` (a stable sort);
  text ordering is codepoint-lexicographic.
* JavaScript `Record<string, T>` objects are modelled as `String → Option T`;
  JavaScript truthiness of a string is `≠ ""` in the guards that check it.
* `new Date()` inside `addSubcategoryToCurrentAndFutureMonths` (the current
  clock) is passed in as explicit `currentYear`/`currentMonth` arguments.
-/

/-- A `categories` row. -/
structure Category where
  id : Nat
  name : String
deriving DecidableEq

/-- A `subcategories` row. -/
structure Subcategory where
  id : Nat
  category_id : Nat
  name : String
  display_order : Int
deriving DecidableEq

/-- A `months` row: the lazily materialized budgeting period. -/
structure Month where
  id : Nat
  year : Int
  month : Int
  label : Option String
deriving DecidableEq

/-- A `month_budgets` row. -/
structure MonthBudget where
  id : Nat
  month_id : Nat
  subcategory_id : Nat
  budget_amount : ℚ
deriving DecidableEq

/-- An `entries` row (legacy per-month snapshot ledger). -/
structure EntryRow where
  id : Nat
  month_id : Nat
  subcategory_id : Nat
  amount : ℚ
deriving DecidableEq

/-- A calendar date, as stored in the `occurred_at` date column. -/
structure DateYMD where
  year : Int
  month : Int
  day : Int
deriving DecidableEq

/-- A `transactions` row (current per-event ledger). -/
structure TxnRow where
  id : Nat
  occurred_at : DateYMD
  amount : ℚ
  subcategory_id : Nat
deriving DecidableEq

/-- A `month_subcategory_visibility` row. -/
structure VisRow where
  month_id : Nat
  subcategory_id : Nat
  is_visible : Bool
deriving DecidableEq

/-- The remote store, one user's data. `nextId` models the id sequence. -/
structure DB where
  categories : List Category
  subcategories : List Subcategory
  months : List Month
  month_budgets : List MonthBudget
  entries : List EntryRow
  transactions : List TxnRow
  visibility : List VisRow
  nextId : Nat
deriving DecidableEq

/-- Codepoint-lexicographic string order, modelling the text ordering used
by `.order('name')`. -/
def strLeB : List Char → List Char → Bool
  | [], _ => true
  | _ :: _, [] => false
  | c :: cs, d :: ds =>
    if c.toNat < d.toNat then true
    else if d.toNat < c.toNat then false
    else strLeB cs ds

/-- `fetchCategories`: select all categories ordered by name. -/
def fetchCategories (s : DB) : List Category :=
  s.categories.insertionSort (fun a b => strLeB a.name.data b.name.data = true)

/-- `fetchSubcategories`: select all subcategories ordered by display order. -/
def fetchSubcategories (s : DB) : List Subcategory :=
  s.subcategories.insertionSort (fun a b => a.display_order ≤ b.display_order)

/-- The embedded `subcategory` of a row, resolved by foreign key
(`subcategory:subcategories(...)`). -/
def joinedSubcategory (s : DB) (sid : Nat) : Option Subcategory :=
  s.subcategories.find? (fun sub => sub.id == sid)

/-- The flattened `category` of a row: the embedded subcategory's embedded
category (`item.subcategory?.category`). -/
def joinedCategory (s : DB) (sid : Nat) : Option Category :=
  (joinedSubcategory s sid).bind (fun sub => s.categories.find? (fun c => c.id == sub.category_id))

/-- `fetchMonth`: look up a month row by `(year, month)`. -/
def fetchMonth (s : DB) (year month : Int) : Option Month :=
  s.months.find? (fun mr => mr.year == year && mr.month == month)

/-- `createMonth`: insert a new month row and return it. -/
def createMonth (s : DB) (year month : Int) (label : Option String) : Month × DB :=
  let mr : Month := ⟨s.nextId, year, month, label⟩
  (mr, { s with months := s.months ++ [mr], nextId := s.nextId + 1 })

/-- `getOrCreateMonth`: fetch the month; when absent, create it. This is
the source's separate read-then-write sequence, not an atomic upsert. -/
def getOrCreateMonth (s : DB) (year month : Int) : Month × DB :=
  match fetchMonth s year month with
  | some mr => (mr, s)
  | none => createMonth s year month none

/-- An `entries` row flattened with its joined subcategory and category,
as returned by `fetchEntriesForMonth`. -/
structure EntryWithDetails where
  id : Nat
  month_id : Nat
  subcategory_id : Nat
  amount : ℚ
  subcategory : Option Subcategory
  category : Option Category
deriving DecidableEq

/-- `fetchEntriesForMonth`: resolve the month by key (read-only; absent
month means an empty result, no month row is created), then select the
month's entries with their joined taxonomy rows. -/
def fetchEntriesForMonth (s : DB) (year month : Int) : List EntryWithDetails :=
  match fetchMonth s year month with
  | none => []
  | some monthRecord =>
    (s.entries.filter (fun e => e.month_id == monthRecord.id)).map (fun e =>
      ⟨e.id, e.month_id, e.subcategory_id, e.amount,
        joinedSubcategory s e.subcategory_id, joinedCategory s e.subcategory_id⟩)

/-- Days in a calendar month, the value of `new Date(year, month, 0).getDate()`
for `1 ≤ month ≤ 12`. -/
def daysInMonth (year month : Int) : Int :=
  if month = 2 then
    (if year % 4 = 0 ∧ (year % 100 ≠ 0 ∨ year % 400 = 0) then 29 else 28)
  else if month = 4 ∨ month = 6 ∨ month = 9 ∨ month = 11 then 30
  else 31

/-- Date comparison, the order of the `occurred_at` date column. -/
def dateLeB (a b : DateYMD) : Bool :=
  decide (a.year < b.year ∨ (a.year = b.year ∧
    (a.month < b.month ∨ (a.month = b.month ∧ a.day ≤ b.day))))

/-- A `transactions` row flattened with its joined subcategory and category,
as returned by `fetchTransactionsForMonth`. -/
structure TxnWithDetails where
  id : Nat
  occurred_at : DateYMD
  amount : ℚ
  subcategory_id : Nat
  subcategory : Option Subcategory
  category : Option Category
deriving DecidableEq

/-- `fetchTransactionsForMonth`: select transactions whose `occurred_at`
lies between the first and last calendar day of the month (inclusive),
newest first, flattened with their joined taxonomy rows. -/
def fetchTransactionsForMonth (s : DB) (year month : Int) : List TxnWithDetails :=
  let startDate : DateYMD := ⟨year, month, 1⟩
  let endDate : DateYMD := ⟨year, month, daysInMonth year month⟩
  ((s.transactions.filter (fun t =>
      dateLeB startDate t.occurred_at && dateLeB t.occurred_at endDate)).map (fun t =>
        (⟨t.id, t.occurred_at, t.amount, t.subcategory_id,
          joinedSubcategory s t.subcategory_id,
          joinedCategory s t.subcategory_id⟩ : TxnWithDetails))).insertionSort
    (fun a b => dateLeB b.occurred_at a.occurred_at = true)

/-- The regime selector `useEntries`: November 2025 and earlier use the
legacy `entries` ledger, December 2025 onwards the `transactions` ledger. -/
def useEntriesFor (year month : Int) : Prop :=
  year < 2025 ∨ (year = 2025 ∧ month < 12)

instance (year month : Int) : Decidable (useEntriesFor year month) := by
  unfold useEntriesFor; infer_instance

/-- A value of the per-category totals record. -/
structure CatTotal where
  categoryId : Nat
  categoryName : String
  total : ℚ
deriving DecidableEq

/-- A value of the per-subcategory totals record. -/
structure SubTotal where
  subcategoryId : Nat
  subcategoryName : String
  total : ℚ
  categoryName : String
deriving DecidableEq

/-- Initialize the per-category totals record: every known category at
total 0; a later duplicate name overwrites an earlier one. -/
def initCatTotals (cats : List Category) : String → Option CatTotal :=
  cats.foldl (fun m c => fun n => if n = c.name then some ⟨c.id, c.name, 0⟩ else m n)
    (fun _ => none)

/-- The forEach body of `getMonthlySpendingByCategory`: when the row's
category name is present (truthy) and already a key, add the amount. -/
def addCatAmount (m : String → Option CatTotal) (name? : Option String) (amt : ℚ) :
    String → Option CatTotal :=
  match name? with
  | none => m
  | some name =>
    if name = "" then m
    else
      match m name with
      | none => m
      | some t => fun n => if n = name then some { t with total := t.total + amt } else m n

/-- `getMonthlySpendingByCategory`: initialize all categories at 0, select
the ledger by the fixed cutoff, and accumulate each row's amount into its
joined category's bucket. -/
def getMonthlySpendingByCategory (s : DB) (year month : Int) : String → Option CatTotal :=
  let totals := initCatTotals (fetchCategories s)
  if useEntriesFor year month then
    (fetchEntriesForMonth s year month).foldl
      (fun acc e => addCatAmount acc (e.category.map (·.name)) e.amount) totals
  else
    (fetchTransactionsForMonth s year month).foldl
      (fun acc t => addCatAmount acc (t.category.map (·.name)) t.amount) totals

/-- The `categoryMap` of `getMonthlySpendingBySubcategory`: a `Map` from
category id to name; a later duplicate id overwrites an earlier one. -/
def categoryNameMap (cats : List Category) : Nat → Option String :=
  cats.foldl (fun f c => fun i => if i = c.id then some c.name else f i) (fun _ => none)

/-- Initialize the per-subcategory totals record: every known subcategory
at total 0, with its category name resolved through `categoryMap` (empty
string when unresolved); a later duplicate name overwrites an earlier one. -/
def initSubTotals (subs : List Subcategory) (catMap : Nat → Option String) :
    String → Option SubTotal :=
  subs.foldl
    (fun m sub => fun n =>
      if n = sub.name then some ⟨sub.id, sub.name, 0, (catMap sub.category_id).getD ""⟩
      else m n)
    (fun _ => none)

/-- The forEach body of `getMonthlySpendingBySubcategory`: when the row's
subcategory name is present (truthy) and already a key, add the amount. -/
def addSubAmount (m : String → Option SubTotal) (name? : Option String) (amt : ℚ) :
    String → Option SubTotal :=
  match name? with
  | none => m
  | some name =>
    if name = "" then m
    else
      match m name with
      | none => m
      | some t => fun n => if n = name then some { t with total := t.total + amt } else m n

/-- `getMonthlySpendingBySubcategory`: initialize all subcategories at 0,
select the ledger by the fixed cutoff, and accumulate each row's amount
into its joined subcategory's bucket. -/
def getMonthlySpendingBySubcategory (s : DB) (year month : Int) : String → Option SubTotal :=
  let totals := initSubTotals (fetchSubcategories s) (categoryNameMap (fetchCategories s))
  if useEntriesFor year month then
    (fetchEntriesForMonth s year month).foldl
      (fun acc e => addSubAmount acc (e.subcategory.map (·.name)) e.amount) totals
  else
    (fetchTransactionsForMonth s year month).foldl
      (fun acc t => addSubAmount acc (t.subcategory.map (·.name)) t.amount) totals

/-- Strict `(year, month)` order on month rows. -/
def monthKeyLt (a b : Month) : Prop :=
  a.year < b.year ∨ (a.year = b.year ∧ a.month < b.month)

instance (a b : Month) : Decidable (monthKeyLt a b) := by
  unfold monthKeyLt; infer_instance

/-- Reflexive `(year, month)` order on month rows. -/
def monthKeyLe (a b : Month) : Prop :=
  a.year < b.year ∨ (a.year = b.year ∧ a.month ≤ b.month)

/-- One step of the `order ... limit 1` maximum: keep the later of the
accumulated best month and the candidate (the first seen wins a tie). -/
def bestMonth (best : Option Month) (cand : Month) : Option Month :=
  match best with
  | none => some cand
  | some bm => if monthKeyLt bm cand then some cand else some bm

/-- `getMostRecentMonthWithBudgets`: over all budget rows joined to their
months, pick the month with the maximum `(year, month)` (the whole budget
table is scanned, months later than any target included). -/
def getMostRecentMonthWithBudgets (s : DB) : Option Month :=
  (s.month_budgets.filterMap (fun b => s.months.find? (fun mr => mr.id == b.month_id))).foldl
    bestMonth none

/-- `fetchBudgetsForMonth`: select the budget rows of one month. -/
def fetchBudgetsForMonth (s : DB) (monthId : Nat) : List MonthBudget :=
  s.month_budgets.filter (fun b => b.month_id == monthId)

/-- The inserted copies made by `copyBudgets`: same subcategory and amount,
the destination month's id, fresh row ids. -/
def insertedRows (nextId toId : Nat) : List MonthBudget → List MonthBudget
  | [] => []
  | b :: bs => ⟨nextId, toId, b.subcategory_id, b.budget_amount⟩ :: insertedRows (nextId + 1) toId bs

/-- `copyBudgets`: read the source month's budget rows and insert one copy
of each for the destination month, returning the inserted rows. -/
def copyBudgets (s : DB) (fromId toId : Nat) : List MonthBudget × DB :=
  let sourceBudgets := fetchBudgetsForMonth s fromId
  let rows := insertedRows s.nextId toId sourceBudgets
  (rows, { s with month_budgets := s.month_budgets ++ rows,
                  nextId := s.nextId + rows.length })

/-- `getOrCreateBudgetsForMonth`: resolve the month; return its budget rows
when it has any; otherwise copy from the most recent month with budgets;
otherwise return the empty list. -/
def getOrCreateBudgetsForMonth (s : DB) (year month : Int) : List MonthBudget × DB :=
  let p := getOrCreateMonth s year month
  let monthRecord := p.1
  let s1 := p.2
  let existingBudgets := fetchBudgetsForMonth s1 monthRecord.id
  if existingBudgets.length > 0 then (existingBudgets, s1)
  else
    match getMostRecentMonthWithBudgets s1 with
    | some mostRecentMonth => copyBudgets s1 mostRecentMonth.id monthRecord.id
    | none => ([], s1)

/-- Modelled from the spec: `fetchAllSubcategoryVisibility` is imported by
`manage-subcategories-modal.tsx` but its definition is not under `src/`;
per §4.3 it fetches every `month_subcategory_visibility` row of one month
(visible and hidden alike, unlike `fetchVisibleSubcategoriesForMonth`). -/
def fetchAllSubcategoryVisibility (s : DB) (monthId : Nat) : List VisRow :=
  s.visibility.filter (fun v => v.month_id == monthId)

/-- The visibility map built by the modal's `loadData`: for each fetched
subcategory, the month's row when one exists, else the default `true`. -/
def buildVisibilityMap (subs : List Subcategory) (visibility : List VisRow) :
    Nat → Option Bool :=
  subs.foldl
    (fun m sub => fun i =>
      if i = sub.id then
        some (match visibility.find? (fun v => v.subcategory_id == sub.id) with
          | some v => v.is_visible
          | none => true)
      else m i)
    (fun _ => none)

/-- The modal's month-visibility resolution: get-or-create the month, fetch
its visibility rows, and build the per-subcategory map. -/
def modalVisibilityMap (s : DB) (year month : Int) : (Nat → Option Bool) × DB :=
  let p := getOrCreateMonth s year month
  ((buildVisibilityMap (fetchSubcategories p.2) (fetchAllSubcategoryVisibility p.2 p.1.id)),
    p.2)

/-- One upsert against the `(month_id, subcategory_id)` conflict target:
update the matching rows' visibility in place, or insert when absent. -/
def upsertVisRow (l : List VisRow) (r : VisRow) : List VisRow :=
  if l.any (fun v => v.month_id == r.month_id && v.subcategory_id == r.subcategory_id) then
    l.map (fun v =>
      if v.month_id == r.month_id && v.subcategory_id == r.subcategory_id then
        { v with is_visible := r.is_visible }
      else v)
  else l ++ [r]

/-- `addSubcategoryToCurrentAndFutureMonths`: select every month with
`(year, month)` at or after the current clock month, and upsert a
`isVisible = true` row for the subcategory in each. The clock read
(`new Date()`) is passed in as `currentYear`/`currentMonth`. -/
def addSubcategoryToCurrentAndFutureMonths (s : DB) (subcategoryId : Nat)
    (currentYear currentMonth : Int) : List VisRow × DB :=
  let months := s.months.filter (fun m =>
    decide (m.year > currentYear ∨ (m.year = currentYear ∧ m.month ≥ currentMonth)))
  if months.isEmpty then ([], s)
  else
    let visibilityRecords := months.map (fun m => (⟨m.id, subcategoryId, true⟩ : VisRow))
    (visibilityRecords,
      { s with visibility := visibilityRecords.foldl upsertVisRow s.visibility })

/-- The per-key contribution of a row list: the sum of the amounts of the
rows whose resolved key is exactly the (truthy) name `n`. -/
def keyedSum {β : Type} (key : β → Option String) (amt : β → ℚ) (l : List β) (n : String) : ℚ :=
  (l.map (fun b => if key b = some n ∧ n ≠ "" then amt b else 0)).sum

/-- The category name a ledger row resolves to, as a function of its
subcategory id (the flattened `row.category?.name`). -/
def eventCategoryName (s : DB) (p : Nat × ℚ) : Option String :=
  (joinedCategory s p.1).map (·.name)

/-- The subcategory name a ledger row resolves to, as a function of its
subcategory id (the flattened `row.subcategory?.name`). -/
def eventSubcategoryName (s : DB) (p : Nat × ℚ) : Option String :=
  (joinedSubcategory s p.1).map (·.name)

/-- The month's ledger rows reduced to `(subcategory id, amount)` pairs:
the legacy month's entries before the cutoff, the month's transactions at
or after it. This is the common shape both aggregations fold over. -/
def monthEvents (s : DB) (year month : Int) : List (Nat × ℚ) :=
  if useEntriesFor year month then
    match fetchMonth s year month with
    | none => []
    | some monthRecord =>
      (s.entries.filter (fun e => e.month_id == monthRecord.id)).map
        (fun e => (e.subcategory_id, e.amount))
  else
    (s.transactions.filter (fun t =>
        dateLeB ⟨year, month, 1⟩ t.occurred_at &&
        dateLeB t.occurred_at ⟨year, month, daysInMonth year month⟩)).map
      (fun t => (t.subcategory_id, t.amount))

/-- The declarative value of a category bucket: the summed amounts of the
month's ledger rows resolving to that category name. -/
def categoryContribution (s : DB) (year month : Int) (n : String) : ℚ :=
  keyedSum (eventCategoryName s) Prod.snd (monthEvents s year month) n

/-- The declarative value of a subcategory bucket: the summed amounts of
the month's ledger rows resolving to that subcategory name. -/
def subcategoryContribution (s : DB) (year month : Int) (n : String) : ℚ :=
  keyedSum (eventSubcategoryName s) Prod.snd (monthEvents s year month) n

/-- Well-formedness of the month registry and budget table: unique
`(year, month)` keys, unique row ids below the id sequence, and budget
rows referencing existing months. These are the store's primary-key,
unique-constraint and foreign-key invariants assumed by the spec. -/
def MonthsWF (s : DB) : Prop :=
  (s.months.map (fun mr => (mr.year, mr.month))).Nodup ∧
  (s.months.map (·.id)).Nodup ∧
  (∀ mr ∈ s.months, mr.id < s.nextId) ∧
  (∀ b ∈ s.month_budgets, ∃ mr ∈ s.months, mr.id = b.month_id)

/-- Well-formedness of the taxonomy: distinct, nonempty category and
subcategory names and distinct category ids. The aggregation results are
keyed by name, so name collisions alias buckets. -/
def TaxonomyWF (s : DB) : Prop :=
  (s.categories.map (·.name)).Nodup ∧
  (s.categories.map (·.id)).Nodup ∧
  (∀ c ∈ s.categories, c.name ≠ "") ∧
  (s.subcategories.map (·.name)).Nodup ∧
  (∀ sub ∈ s.subcategories, sub.name ≠ "")

/-- A one-category, one-subcategory store holding one legacy entry of
120.00 in the materialized month 2025-11 and one transaction of 45.50
dated 2025-12-03: the spec's cutoff example. -/
def sC4 : DB :=
  { categories := [⟨1, "Needs"⟩],
    subcategories := [⟨10, 1, "Groceries", 1⟩],
    months := [⟨100, 2025, 11, none⟩],
    month_budgets := [],
    entries := [⟨500, 100, 10, 120⟩],
    transactions := [⟨600, ⟨2025, 12, 3⟩, 45.5, 10⟩],
    visibility := [],
    nextId := 1000 }

/-- An empty store, before any month is materialized. -/
def dbEmpty : DB :=
  ⟨[], [], [], [], [], [], [], 1⟩

/-- A store with two materialized months, 2024-12 (one budget row) and
2025-01 (two budget rows), and an untouched visibility table. -/
def sB : DB :=
  { categories := [⟨1, "Needs"⟩],
    subcategories := [⟨10, 1, "Rent", 1⟩, ⟨11, 1, "Food", 2⟩],
    months := [⟨90, 2024, 12, none⟩, ⟨100, 2025, 1, none⟩],
    month_budgets := [⟨200, 90, 10, 40⟩, ⟨201, 100, 10, 50⟩, ⟨202, 100, 11, 60⟩],
    entries := [],
    transactions := [],
    visibility := [],
    nextId := 300 }

/-- The displayed value of a subcategory bucket: its total, 0 when the
name is not a key of the mapping. -/
def subcategoryTotalValue (s : DB) (year month : Int) (n : String) : ℚ :=
  (((getMonthlySpendingBySubcategory s year month) n).map (·.total)).getD 0

/-- A store with two subcategories sharing the name "X" in different
categories: the name-keyed subcategory mapping aliases them. -/
def s5 : DB :=
  { categories := [⟨1, "A"⟩, ⟨2, "B"⟩],
    subcategories := [⟨10, 1, "X", 1⟩, ⟨11, 2, "X", 2⟩],
    months := [⟨100, 2025, 1, none⟩],
    month_budgets := [],
    entries := [⟨500, 100, 10, 10⟩],
    transactions := [],
    visibility := [],
    nextId := 1000 }

/-! ## Generic lemmas about the totals folds -/

theorem keyedSum_nil {β : Type} (key : β → Option String) (amt : β → ℚ) (n : String) :
    keyedSum key amt [] n = 0 := by
  simp [keyedSum]

theorem keyedSum_cons {β : Type} (key : β → Option String) (amt : β → ℚ) (b : β) (l : List β)
    (n : String) :
    keyedSum key amt (b :: l) n
      = (if key b = some n ∧ n ≠ "" then amt b else 0) + keyedSum key amt l n := by
  simp [keyedSum]

theorem keyedSum_perm {β : Type} (key : β → Option String) (amt : β → ℚ) {l l' : List β}
    (h : l.Perm l') (n : String) :
    keyedSum key amt l n = keyedSum key amt l' n :=
  (h.map _).sum_eq

theorem keyedSum_map {β γ : Type} (key : γ → Option String) (amt : γ → ℚ) (g : β → γ)
    (l : List β) (n : String) :
    keyedSum key amt (l.map g) n = keyedSum (fun b => key (g b)) (fun b => amt (g b)) l n := by
  simp [keyedSum, List.map_map]
  rfl

theorem addCatAmount_total (m : String → Option CatTotal) (name? : Option String) (amt : ℚ)
    (n : String) :
    ((addCatAmount m name? amt) n).map (·.total)
      = (m n).map (fun t => t.total + if name? = some n ∧ n ≠ "" then amt else 0) := by
  cases name? with
  | none =>
    have hneg : ¬((none : Option String) = some n ∧ n ≠ "") := by simp
    rw [if_neg hneg]
    cases h : m n <;> simp [addCatAmount, h]
  | some name =>
    by_cases hne : name = ""
    · have hneg : ¬(some name = some n ∧ n ≠ "") := by
        rintro ⟨h1, h2⟩
        exact h2 ((Option.some_injective _ h1).symm.trans hne)
      rw [if_neg hneg]
      cases h : m n <;> simp [addCatAmount, hne, h]
    · cases hmn : m name with
      | none =>
        have hstep : addCatAmount m (some name) amt = m := by
          simp [addCatAmount, hne, hmn]
        rw [hstep]
        by_cases hn : name = n
        · subst hn
          rw [hmn]
          simp
        · have hneg : ¬(some name = some n ∧ n ≠ "") := by
            rintro ⟨h1, _⟩
            exact hn (Option.some_injective _ h1)
          rw [if_neg hneg]
          cases h : m n <;> simp [h]
      | some t =>
        have hstep : addCatAmount m (some name) amt
            = fun n' => if n' = name then some { t with total := t.total + amt } else m n' := by
          simp [addCatAmount, hne, hmn]
        rw [hstep]
        by_cases hn : n = name
        · subst hn
          have hcond : (some n = some n ∧ n ≠ "") := ⟨rfl, fun h => hne (h ▸ rfl)⟩
          beta_reduce
          rw [if_pos rfl, if_pos hcond, hmn]
          simp
        · have hneg : ¬(some name = some n ∧ n ≠ "") := by
            rintro ⟨h1, _⟩
            exact hn (Option.some_injective _ h1).symm
          beta_reduce
          rw [if_neg hn, if_neg hneg]
          cases h : m n <;> simp [h]

theorem foldl_addCatAmount_total {β : Type} (key : β → Option String) (amt : β → ℚ) :
    ∀ (l : List β) (m : String → Option CatTotal) (n : String),
      ((l.foldl (fun acc b => addCatAmount acc (key b) (amt b)) m) n).map (·.total)
        = (m n).map (fun t => t.total + keyedSum key amt l n)
  | [], m, n => by
    rw [keyedSum_nil]
    cases h : m n <;> simp [h]
  | b :: l, m, n => by
    rw [List.foldl_cons, foldl_addCatAmount_total key amt l (addCatAmount m (key b) (amt b)) n,
      keyedSum_cons]
    have hstep := addCatAmount_total m (key b) (amt b) n
    cases hmn : m n with
    | none =>
      rw [hmn] at hstep
      have hnone : (addCatAmount m (key b) (amt b)) n = none := by
        cases h : (addCatAmount m (key b) (amt b)) n
        · rfl
        · rw [h] at hstep; simp at hstep
      rw [hnone]
      simp
    | some t =>
      rw [hmn] at hstep
      cases h : (addCatAmount m (key b) (amt b)) n with
      | none => rw [h] at hstep; simp at hstep
      | some u =>
        rw [h] at hstep
        simp only [Option.map_some'] at hstep
        have hu : u.total = t.total + (if key b = some n ∧ n ≠ "" then amt b else 0) :=
          Option.some_injective _ hstep
        simp only [Option.map_some', Option.some.injEq]
        rw [hu, add_assoc]

theorem addSubAmount_total (m : String → Option SubTotal) (name? : Option String) (amt : ℚ)
    (n : String) :
    ((addSubAmount m name? amt) n).map (·.total)
      = (m n).map (fun t => t.total + if name? = some n ∧ n ≠ "" then amt else 0) := by
  cases name? with
  | none =>
    have hneg : ¬((none : Option String) = some n ∧ n ≠ "") := by simp
    rw [if_neg hneg]
    cases h : m n <;> simp [addSubAmount, h]
  | some name =>
    by_cases hne : name = ""
    · have hneg : ¬(some name = some n ∧ n ≠ "") := by
        rintro ⟨h1, h2⟩
        exact h2 ((Option.some_injective _ h1).symm.trans hne)
      rw [if_neg hneg]
      cases h : m n <;> simp [addSubAmount, hne, h]
    · cases hmn : m name with
      | none =>
        have hstep : addSubAmount m (some name) amt = m := by
          simp [addSubAmount, hne, hmn]
        rw [hstep]
        by_cases hn : name = n
        · subst hn
          rw [hmn]
          simp
        · have hneg : ¬(some name = some n ∧ n ≠ "") := by
            rintro ⟨h1, _⟩
            exact hn (Option.some_injective _ h1)
          rw [if_neg hneg]
          cases h : m n <;> simp [h]
      | some t =>
        have hstep : addSubAmount m (some name) amt
            = fun n' => if n' = name then some { t with total := t.total + amt } else m n' := by
          simp [addSubAmount, hne, hmn]
        rw [hstep]
        by_cases hn : n = name
        · subst hn
          have hcond : (some n = some n ∧ n ≠ "") := ⟨rfl, fun h => hne (h ▸ rfl)⟩
          beta_reduce
          rw [if_pos rfl, if_pos hcond, hmn]
          simp
        · have hneg : ¬(some name = some n ∧ n ≠ "") := by
            rintro ⟨h1, _⟩
            exact hn (Option.some_injective _ h1).symm
          beta_reduce
          rw [if_neg hn, if_neg hneg]
          cases h : m n <;> simp [h]

theorem foldl_addSubAmount_total {β : Type} (key : β → Option String) (amt : β → ℚ) :
    ∀ (l : List β) (m : String → Option SubTotal) (n : String),
      ((l.foldl (fun acc b => addSubAmount acc (key b) (amt b)) m) n).map (·.total)
        = (m n).map (fun t => t.total + keyedSum key amt l n)
  | [], m, n => by
    rw [keyedSum_nil]
    cases h : m n <;> simp [h]
  | b :: l, m, n => by
    rw [List.foldl_cons, foldl_addSubAmount_total key amt l (addSubAmount m (key b) (amt b)) n,
      keyedSum_cons]
    have hstep := addSubAmount_total m (key b) (amt b) n
    cases hmn : m n with
    | none =>
      rw [hmn] at hstep
      have hnone : (addSubAmount m (key b) (amt b)) n = none := by
        cases h : (addSubAmount m (key b) (amt b)) n
        · rfl
        · rw [h] at hstep; simp at hstep
      rw [hnone]
      simp
    | some t =>
      rw [hmn] at hstep
      cases h : (addSubAmount m (key b) (amt b)) n with
      | none => rw [h] at hstep; simp at hstep
      | some u =>
        rw [h] at hstep
        simp only [Option.map_some'] at hstep
        have hu : u.total = t.total + (if key b = some n ∧ n ≠ "" then amt b else 0) :=
          Option.some_injective _ hstep
        simp only [Option.map_some', Option.some.injEq]
        rw [hu, add_assoc]

/-! ## Characterization of the initialized totals records -/

theorem initCatTotals_foldl_char :
    ∀ (cats : List Category) (m0 : String → Option CatTotal) (n : String),
      (cats.foldl (fun m c => fun n' => if n' = c.name then some ⟨c.id, c.name, 0⟩ else m n') m0) n
        = (cats.reverse.find? (fun c => c.name == n)).elim (m0 n)
            (fun c => some ⟨c.id, c.name, 0⟩)
  | [], m0, n => rfl
  | c :: cats, m0, n => by
    rw [List.foldl_cons, initCatTotals_foldl_char cats _ n, List.reverse_cons, List.find?_append]
    cases hf : cats.reverse.find? (fun c' => c'.name == n) with
    | some c' => simp
    | none =>
      by_cases hcn : c.name = n
      · simp [List.find?_cons, hcn]
      · simp [List.find?_cons, hcn, Ne.symm hcn]

theorem initCatTotals_eq (cats : List Category) (n : String) :
    initCatTotals cats n
      = (cats.reverse.find? (fun c => c.name == n)).elim none
          (fun c => some ⟨c.id, c.name, 0⟩) :=
  initCatTotals_foldl_char cats (fun _ => none) n

theorem initCatTotals_isSome (cats : List Category) (n : String) :
    (initCatTotals cats n).isSome ↔ n ∈ cats.map (·.name) := by
  rw [initCatTotals_eq]
  cases hf : cats.reverse.find? (fun c => c.name == n) with
  | none =>
    rw [List.find?_eq_none] at hf
    simp only [Option.elim_none, Option.isSome_none, Bool.false_eq_true, false_iff]
    intro hmem
    rcases List.mem_map.mp hmem with ⟨c, hc, hname⟩
    exact absurd (by simp [hname]) (hf c (List.mem_reverse.mpr hc))
  | some c =>
    have h1 := List.find?_some hf
    have h2 := List.mem_of_find?_eq_some hf
    simp only [Option.elim_some, Option.isSome_some, true_iff]
    exact List.mem_map.mpr ⟨c, List.mem_reverse.mp h2, by simpa using h1⟩

theorem initCatTotals_total_of_mem (cats : List Category) (n : String)
    (h : n ∈ cats.map (·.name)) :
    (initCatTotals cats n).map (·.total) = some 0 := by
  have hs := (initCatTotals_isSome cats n).mpr h
  rw [initCatTotals_eq] at hs ⊢
  cases hf : cats.reverse.find? (fun c => c.name == n) with
  | none => rw [hf] at hs; simp at hs
  | some c => simp

theorem initSubTotals_foldl_char (catMap : Nat → Option String) :
    ∀ (subs : List Subcategory) (m0 : String → Option SubTotal) (n : String),
      (subs.foldl
        (fun m sub => fun n' =>
          if n' = sub.name then
            some ⟨sub.id, sub.name, 0, (catMap sub.category_id).getD ""⟩
          else m n') m0) n
        = (subs.reverse.find? (fun sub => sub.name == n)).elim (m0 n)
            (fun sub => some ⟨sub.id, sub.name, 0, (catMap sub.category_id).getD ""⟩)
  | [], m0, n => rfl
  | sub :: subs, m0, n => by
    rw [List.foldl_cons, initSubTotals_foldl_char catMap subs _ n, List.reverse_cons,
      List.find?_append]
    cases hf : subs.reverse.find? (fun sub' => sub'.name == n) with
    | some sub' => simp
    | none =>
      by_cases hcn : sub.name = n
      · simp [List.find?_cons, hcn]
      · simp [List.find?_cons, hcn, Ne.symm hcn]

theorem initSubTotals_eq (subs : List Subcategory) (catMap : Nat → Option String) (n : String) :
    initSubTotals subs catMap n
      = (subs.reverse.find? (fun sub => sub.name == n)).elim none
          (fun sub => some ⟨sub.id, sub.name, 0, (catMap sub.category_id).getD ""⟩) :=
  initSubTotals_foldl_char catMap subs (fun _ => none) n

theorem initSubTotals_isSome (subs : List Subcategory) (catMap : Nat → Option String)
    (n : String) :
    (initSubTotals subs catMap n).isSome ↔ n ∈ subs.map (·.name) := by
  rw [initSubTotals_eq]
  cases hf : subs.reverse.find? (fun sub => sub.name == n) with
  | none =>
    rw [List.find?_eq_none] at hf
    simp only [Option.elim_none, Option.isSome_none, Bool.false_eq_true, false_iff]
    intro hmem
    rcases List.mem_map.mp hmem with ⟨sub, hsub, hname⟩
    exact absurd (by simp [hname]) (hf sub (List.mem_reverse.mpr hsub))
  | some sub =>
    have h1 := List.find?_some hf
    have h2 := List.mem_of_find?_eq_some hf
    simp only [Option.elim_some, Option.isSome_some, true_iff]
    exact List.mem_map.mpr ⟨sub, List.mem_reverse.mp h2, by simpa using h1⟩

theorem initSubTotals_total_of_mem (subs : List Subcategory) (catMap : Nat → Option String)
    (n : String) (h : n ∈ subs.map (·.name)) :
    (initSubTotals subs catMap n).map (·.total) = some 0 := by
  have hs := (initSubTotals_isSome subs catMap n).mpr h
  rw [initSubTotals_eq] at hs ⊢
  cases hf : subs.reverse.find? (fun sub => sub.name == n) with
  | none => rw [hf] at hs; simp at hs
  | some sub => simp

/-! ## Bridging the aggregation folds to the declarative contributions -/

theorem keyedSum_entries_cat (s : DB) (year month : Int) (n : String)
    (h : useEntriesFor year month) :
    keyedSum (fun e : EntryWithDetails => e.category.map (·.name)) (fun e => e.amount)
      (fetchEntriesForMonth s year month) n = categoryContribution s year month n := by
  simp only [categoryContribution, monthEvents, fetchEntriesForMonth, if_pos h]
  cases hm : fetchMonth s year month with
  | none => simp [keyedSum]
  | some mr =>
    rw [keyedSum_map, keyedSum_map]
    rfl

theorem keyedSum_txns_cat (s : DB) (year month : Int) (n : String)
    (h : ¬useEntriesFor year month) :
    keyedSum (fun t : TxnWithDetails => t.category.map (·.name)) (fun t => t.amount)
      (fetchTransactionsForMonth s year month) n = categoryContribution s year month n := by
  simp only [categoryContribution, monthEvents, fetchTransactionsForMonth, if_neg h]
  rw [keyedSum_perm _ _ (List.perm_insertionSort _ _) n, keyedSum_map, keyedSum_map]
  rfl

theorem keyedSum_entries_sub (s : DB) (year month : Int) (n : String)
    (h : useEntriesFor year month) :
    keyedSum (fun e : EntryWithDetails => e.subcategory.map (·.name)) (fun e => e.amount)
      (fetchEntriesForMonth s year month) n = subcategoryContribution s year month n := by
  simp only [subcategoryContribution, monthEvents, fetchEntriesForMonth, if_pos h]
  cases hm : fetchMonth s year month with
  | none => simp [keyedSum]
  | some mr =>
    rw [keyedSum_map, keyedSum_map]
    rfl

theorem keyedSum_txns_sub (s : DB) (year month : Int) (n : String)
    (h : ¬useEntriesFor year month) :
    keyedSum (fun t : TxnWithDetails => t.subcategory.map (·.name)) (fun t => t.amount)
      (fetchTransactionsForMonth s year month) n = subcategoryContribution s year month n := by
  simp only [subcategoryContribution, monthEvents, fetchTransactionsForMonth, if_neg h]
  rw [keyedSum_perm _ _ (List.perm_insertionSort _ _) n, keyedSum_map, keyedSum_map]
  rfl

theorem byCategory_total_char (s : DB) (year month : Int) (n : String) :
    ((getMonthlySpendingByCategory s year month) n).map (·.total)
      = (initCatTotals (fetchCategories s) n).map
          (fun t => t.total + categoryContribution s year month n) := by
  by_cases h : useEntriesFor year month
  · have hfold := foldl_addCatAmount_total
      (fun e : EntryWithDetails => e.category.map (·.name)) (fun e => e.amount)
      (fetchEntriesForMonth s year month) (initCatTotals (fetchCategories s)) n
    rw [keyedSum_entries_cat s year month n h] at hfold
    have hunf : ((getMonthlySpendingByCategory s year month) n).map (·.total)
        = (((fetchEntriesForMonth s year month).foldl
            (fun acc e => addCatAmount acc (e.category.map (·.name)) e.amount)
            (initCatTotals (fetchCategories s))) n).map (·.total) := by
      simp only [getMonthlySpendingByCategory]
      rw [if_pos h]
    rw [hunf]
    exact hfold
  · have hfold := foldl_addCatAmount_total
      (fun t : TxnWithDetails => t.category.map (·.name)) (fun t => t.amount)
      (fetchTransactionsForMonth s year month) (initCatTotals (fetchCategories s)) n
    rw [keyedSum_txns_cat s year month n h] at hfold
    have hunf : ((getMonthlySpendingByCategory s year month) n).map (·.total)
        = (((fetchTransactionsForMonth s year month).foldl
            (fun acc t => addCatAmount acc (t.category.map (·.name)) t.amount)
            (initCatTotals (fetchCategories s))) n).map (·.total) := by
      simp only [getMonthlySpendingByCategory]
      rw [if_neg h]
    rw [hunf]
    exact hfold

theorem bySubcategory_total_char (s : DB) (year month : Int) (n : String) :
    ((getMonthlySpendingBySubcategory s year month) n).map (·.total)
      = (initSubTotals (fetchSubcategories s) (categoryNameMap (fetchCategories s)) n).map
          (fun t => t.total + subcategoryContribution s year month n) := by
  by_cases h : useEntriesFor year month
  · have hfold := foldl_addSubAmount_total
      (fun e : EntryWithDetails => e.subcategory.map (·.name)) (fun e => e.amount)
      (fetchEntriesForMonth s year month)
      (initSubTotals (fetchSubcategories s) (categoryNameMap (fetchCategories s))) n
    rw [keyedSum_entries_sub s year month n h] at hfold
    have hunf : ((getMonthlySpendingBySubcategory s year month) n).map (·.total)
        = (((fetchEntriesForMonth s year month).foldl
            (fun acc e => addSubAmount acc (e.subcategory.map (·.name)) e.amount)
            (initSubTotals (fetchSubcategories s) (categoryNameMap (fetchCategories s)))) n).map
              (·.total) := by
      simp only [getMonthlySpendingBySubcategory]
      rw [if_pos h]
    rw [hunf]
    exact hfold
  · have hfold := foldl_addSubAmount_total
      (fun t : TxnWithDetails => t.subcategory.map (·.name)) (fun t => t.amount)
      (fetchTransactionsForMonth s year month)
      (initSubTotals (fetchSubcategories s) (categoryNameMap (fetchCategories s))) n
    rw [keyedSum_txns_sub s year month n h] at hfold
    have hunf : ((getMonthlySpendingBySubcategory s year month) n).map (·.total)
        = (((fetchTransactionsForMonth s year month).foldl
            (fun acc t => addSubAmount acc (t.subcategory.map (·.name)) t.amount)
            (initSubTotals (fetchSubcategories s) (categoryNameMap (fetchCategories s)))) n).map
              (·.total) := by
      simp only [getMonthlySpendingBySubcategory]
      rw [if_neg h]
    rw [hunf]
    exact hfold

/-! ## Result-mapping domains -/

theorem byCategory_isSome (s : DB) (year month : Int) (n : String) :
    ((getMonthlySpendingByCategory s year month) n).isSome
      ↔ n ∈ s.categories.map (·.name) := by
  have hchar := congrArg Option.isSome (byCategory_total_char s year month n)
  rw [Option.isSome_map', Option.isSome_map'] at hchar
  rw [hchar, initCatTotals_isSome]
  exact ((List.perm_insertionSort _ _).map _).mem_iff

theorem bySubcategory_isSome (s : DB) (year month : Int) (n : String) :
    ((getMonthlySpendingBySubcategory s year month) n).isSome
      ↔ n ∈ s.subcategories.map (·.name) := by
  have hchar := congrArg Option.isSome (bySubcategory_total_char s year month n)
  rw [Option.isSome_map', Option.isSome_map'] at hchar
  rw [hchar, initSubTotals_isSome]
  exact ((List.perm_insertionSort _ _).map _).mem_iff

theorem byCategory_total_of_mem (s : DB) (year month : Int) (c : Category)
    (hc : c ∈ s.categories) :
    ((getMonthlySpendingByCategory s year month) c.name).map (·.total)
      = some (categoryContribution s year month c.name) := by
  rw [byCategory_total_char]
  have hmem : c.name ∈ (fetchCategories s).map (·.name) :=
    (((List.perm_insertionSort _ _).map _).mem_iff).mpr (List.mem_map_of_mem _ hc)
  have htot := initCatTotals_total_of_mem (fetchCategories s) c.name hmem
  cases hi : initCatTotals (fetchCategories s) c.name with
  | none => rw [hi] at htot; simp at htot
  | some t =>
    rw [hi] at htot
    simp only [Option.map_some'] at htot ⊢
    have ht0 : t.total = 0 := Option.some_injective _ htot
    rw [ht0, zero_add]

theorem bySubcategory_total_of_mem (s : DB) (year month : Int) (sub : Subcategory)
    (hsub : sub ∈ s.subcategories) :
    ((getMonthlySpendingBySubcategory s year month) sub.name).map (·.total)
      = some (subcategoryContribution s year month sub.name) := by
  rw [bySubcategory_total_char]
  have hmem : sub.name ∈ (fetchSubcategories s).map (·.name) :=
    (((List.perm_insertionSort _ _).map _).mem_iff).mpr (List.mem_map_of_mem _ hsub)
  have htot := initSubTotals_total_of_mem (fetchSubcategories s)
    (categoryNameMap (fetchCategories s)) sub.name hmem
  cases hi : initSubTotals (fetchSubcategories s) (categoryNameMap (fetchCategories s))
      sub.name with
  | none => rw [hi] at htot; simp at htot
  | some t =>
    rw [hi] at htot
    simp only [Option.map_some'] at htot ⊢
    have ht0 : t.total = 0 := Option.some_injective _ htot
    rw [ht0, zero_add]

/-! ## Rows with dangling subcategory references are silently dropped -/

theorem monthEvents_cons_entry (s : DB) (e : EntryRow) (year month : Int)
    (h' : useEntriesFor year month) :
    monthEvents { s with entries := e :: s.entries } year month
      = (fetchMonth s year month).elim []
          (fun mr =>
            if e.month_id == mr.id then
              (e.subcategory_id, e.amount) :: monthEvents s year month
            else monthEvents s year month) := by
  simp only [monthEvents, if_pos h']
  have hfm : fetchMonth { s with entries := e :: s.entries } year month
      = fetchMonth s year month := rfl
  rw [hfm]
  cases hm : fetchMonth s year month with
  | none => rfl
  | some mr =>
    simp only [Option.elim_some]
    rw [List.filter_cons]
    by_cases hpass : (e.month_id == mr.id) = true
    · rw [if_pos hpass, if_pos hpass]
      rfl
    · rw [if_neg hpass, if_neg hpass]

theorem monthEvents_entries_irrelevant (s : DB) (e : EntryRow) (year month : Int)
    (h' : ¬useEntriesFor year month) :
    monthEvents { s with entries := e :: s.entries } year month
      = monthEvents s year month := by
  simp only [monthEvents, if_neg h']

theorem monthEvents_cons_txn (s : DB) (t : TxnRow) (year month : Int)
    (h' : ¬useEntriesFor year month) :
    monthEvents { s with transactions := t :: s.transactions } year month
      = if (dateLeB ⟨year, month, 1⟩ t.occurred_at &&
            dateLeB t.occurred_at ⟨year, month, daysInMonth year month⟩) = true then
          (t.subcategory_id, t.amount) :: monthEvents s year month
        else monthEvents s year month := by
  simp only [monthEvents, if_neg h']
  rw [List.filter_cons]
  by_cases hpass : (dateLeB ⟨year, month, 1⟩ t.occurred_at &&
      dateLeB t.occurred_at ⟨year, month, daysInMonth year month⟩) = true
  · rw [if_pos hpass, if_pos hpass]
    rfl
  · rw [if_neg hpass, if_neg hpass]

theorem monthEvents_txns_irrelevant (s : DB) (t : TxnRow) (year month : Int)
    (h' : useEntriesFor year month) :
    monthEvents { s with transactions := t :: s.transactions } year month
      = monthEvents s year month := by
  simp only [monthEvents, if_pos h']
  rfl

theorem categoryContribution_dangling_entry (s : DB) (year month : Int) (e : EntryRow)
    (h : joinedSubcategory s e.subcategory_id = none) (n : String) :
    categoryContribution { s with entries := e :: s.entries } year month n
      = categoryContribution s year month n := by
  show keyedSum (eventCategoryName { s with entries := e :: s.entries }) Prod.snd
      (monthEvents { s with entries := e :: s.entries } year month) n
    = keyedSum (eventCategoryName s) Prod.snd (monthEvents s year month) n
  have hkey : eventCategoryName { s with entries := e :: s.entries } = eventCategoryName s := rfl
  rw [hkey]
  by_cases h' : useEntriesFor year month
  · rw [monthEvents_cons_entry s e year month h']
    cases hm : fetchMonth s year month with
    | none =>
      have hms : monthEvents s year month = [] := by
        simp only [monthEvents, if_pos h', hm]
      rw [hms]
      rfl
    | some mr =>
      simp only [Option.elim_some]
      by_cases hpass : (e.month_id == mr.id) = true
      · rw [if_pos hpass, keyedSum_cons]
        have hkey0 : eventCategoryName s (e.subcategory_id, e.amount) = none := by
          simp [eventCategoryName, joinedCategory, h]
        rw [hkey0]
        have hneg : ¬((none : Option String) = some n ∧ n ≠ "") := by simp
        rw [if_neg hneg, zero_add]
      · rw [if_neg hpass]
  · rw [monthEvents_entries_irrelevant s e year month h']

theorem subcategoryContribution_dangling_entry (s : DB) (year month : Int) (e : EntryRow)
    (h : joinedSubcategory s e.subcategory_id = none) (n : String) :
    subcategoryContribution { s with entries := e :: s.entries } year month n
      = subcategoryContribution s year month n := by
  show keyedSum (eventSubcategoryName { s with entries := e :: s.entries }) Prod.snd
      (monthEvents { s with entries := e :: s.entries } year month) n
    = keyedSum (eventSubcategoryName s) Prod.snd (monthEvents s year month) n
  have hkey : eventSubcategoryName { s with entries := e :: s.entries }
      = eventSubcategoryName s := rfl
  rw [hkey]
  by_cases h' : useEntriesFor year month
  · rw [monthEvents_cons_entry s e year month h']
    cases hm : fetchMonth s year month with
    | none =>
      have hms : monthEvents s year month = [] := by
        simp only [monthEvents, if_pos h', hm]
      rw [hms]
      rfl
    | some mr =>
      simp only [Option.elim_some]
      by_cases hpass : (e.month_id == mr.id) = true
      · rw [if_pos hpass, keyedSum_cons]
        have hkey0 : eventSubcategoryName s (e.subcategory_id, e.amount) = none := by
          simp [eventSubcategoryName, h]
        rw [hkey0]
        have hneg : ¬((none : Option String) = some n ∧ n ≠ "") := by simp
        rw [if_neg hneg, zero_add]
      · rw [if_neg hpass]
  · rw [monthEvents_entries_irrelevant s e year month h']

theorem categoryContribution_dangling_txn (s : DB) (year month : Int) (t : TxnRow)
    (h : joinedSubcategory s t.subcategory_id = none) (n : String) :
    categoryContribution { s with transactions := t :: s.transactions } year month n
      = categoryContribution s year month n := by
  show keyedSum (eventCategoryName { s with transactions := t :: s.transactions }) Prod.snd
      (monthEvents { s with transactions := t :: s.transactions } year month) n
    = keyedSum (eventCategoryName s) Prod.snd (monthEvents s year month) n
  have hkey : eventCategoryName { s with transactions := t :: s.transactions }
      = eventCategoryName s := rfl
  rw [hkey]
  by_cases h' : useEntriesFor year month
  · rw [monthEvents_txns_irrelevant s t year month h']
  · rw [monthEvents_cons_txn s t year month h']
    by_cases hpass : (dateLeB ⟨year, month, 1⟩ t.occurred_at &&
        dateLeB t.occurred_at ⟨year, month, daysInMonth year month⟩) = true
    · rw [if_pos hpass, keyedSum_cons]
      have hkey0 : eventCategoryName s (t.subcategory_id, t.amount) = none := by
        simp [eventCategoryName, joinedCategory, h]
      rw [hkey0]
      have hneg : ¬((none : Option String) = some n ∧ n ≠ "") := by simp
      rw [if_neg hneg, zero_add]
    · rw [if_neg hpass]

theorem subcategoryContribution_dangling_txn (s : DB) (year month : Int) (t : TxnRow)
    (h : joinedSubcategory s t.subcategory_id = none) (n : String) :
    subcategoryContribution { s with transactions := t :: s.transactions } year month n
      = subcategoryContribution s year month n := by
  show keyedSum (eventSubcategoryName { s with transactions := t :: s.transactions }) Prod.snd
      (monthEvents { s with transactions := t :: s.transactions } year month) n
    = keyedSum (eventSubcategoryName s) Prod.snd (monthEvents s year month) n
  have hkey : eventSubcategoryName { s with transactions := t :: s.transactions }
      = eventSubcategoryName s := rfl
  rw [hkey]
  by_cases h' : useEntriesFor year month
  · rw [monthEvents_txns_irrelevant s t year month h']
  · rw [monthEvents_cons_txn s t year month h']
    by_cases hpass : (dateLeB ⟨year, month, 1⟩ t.occurred_at &&
        dateLeB t.occurred_at ⟨year, month, daysInMonth year month⟩) = true
    · rw [if_pos hpass, keyedSum_cons]
      have hkey0 : eventSubcategoryName s (t.subcategory_id, t.amount) = none := by
        simp [eventSubcategoryName, h]
      rw [hkey0]
      have hneg : ¬((none : Option String) = some n ∧ n ≠ "") := by simp
      rw [if_neg hneg, zero_add]
    · rw [if_neg hpass]

/-! ## Claim theorems: aggregation (C4, C9, C10) -/

/-- C4: the aggregator selects its source ledger by the fixed December 2025
cutoff: for periods strictly before it (`year < 2025`, or `year = 2025` and
`month < 12`) both aggregations are computed exclusively from Entry rows
(they are invariant under any change of the transactions table), and at or
after it exclusively from Transaction rows (invariant under any change of
the entries and months tables); concretely, with one Entry of 120.00 for
"Groceries" in 2025-11 and one Transaction of 45.50 for "Groceries" dated
2025-12-03, the "Groceries" subcategory total is 120.00 for 2025-11 and
45.50 for 2025-12. -/
theorem aggregation_fixed_cutoff_regimes :
    (∀ (s : DB) (year month : Int) (T : List TxnRow), useEntriesFor year month →
      getMonthlySpendingByCategory { s with transactions := T } year month
        = getMonthlySpendingByCategory s year month ∧
      getMonthlySpendingBySubcategory { s with transactions := T } year month
        = getMonthlySpendingBySubcategory s year month) ∧
    (∀ (s : DB) (year month : Int) (E : List EntryRow) (M : List Month),
      ¬useEntriesFor year month →
      getMonthlySpendingByCategory { s with entries := E, months := M } year month
        = getMonthlySpendingByCategory s year month ∧
      getMonthlySpendingBySubcategory { s with entries := E, months := M } year month
        = getMonthlySpendingBySubcategory s year month) ∧
    ((getMonthlySpendingBySubcategory sC4 2025 11) "Groceries").map (·.total) = some 120 ∧
    ((getMonthlySpendingBySubcategory sC4 2025 12) "Groceries").map (·.total)
      = some (45.5 : ℚ) ∧
    useEntriesFor 2025 11 ∧ ¬useEntriesFor 2025 12 := by
  refine ⟨?_, ?_, ?_, ?_, by decide, by decide⟩
  · intro s year month T h
    constructor
    · simp only [getMonthlySpendingByCategory]
      rw [if_pos h, if_pos h]
      rfl
    · simp only [getMonthlySpendingBySubcategory]
      rw [if_pos h, if_pos h]
      rfl
  · intro s year month E M h
    constructor
    · simp only [getMonthlySpendingByCategory]
      rw [if_neg h, if_neg h]
      rfl
    · simp only [getMonthlySpendingBySubcategory]
      rw [if_neg h, if_neg h]
      rfl
  · norm_num [getMonthlySpendingBySubcategory, sC4, fetchSubcategories, fetchCategories,
      fetchEntriesForMonth, fetchMonth, useEntriesFor, initSubTotals, categoryNameMap,
      addSubAmount, joinedSubcategory, joinedCategory, List.insertionSort, List.orderedInsert,
      List.find?, List.filter, strLeB]
    simp +decide
  · norm_num [getMonthlySpendingBySubcategory, sC4, fetchSubcategories, fetchCategories,
      fetchTransactionsForMonth, useEntriesFor, initSubTotals, categoryNameMap,
      addSubAmount, joinedSubcategory, joinedCategory, List.insertionSort, List.orderedInsert,
      List.find?, List.filter, dateLeB, daysInMonth, strLeB]
    simp +decide

/-- Witness for C4: the regime invariances applied at the example store. -/
theorem aggregation_fixed_cutoff_regimes_witness :
    useEntriesFor 2025 11 ∧ ¬useEntriesFor 2025 12 ∧
    getMonthlySpendingByCategory { sC4 with transactions := [] } 2025 11
      = getMonthlySpendingByCategory sC4 2025 11 ∧
    getMonthlySpendingByCategory { sC4 with entries := [], months := [] } 2025 12
      = getMonthlySpendingByCategory sC4 2025 12 :=
  ⟨by decide, by decide,
    (aggregation_fixed_cutoff_regimes.1 sC4 2025 11 [] (by decide)).1,
    (aggregation_fixed_cutoff_regimes.2.1 sC4 2025 12 [] [] (by decide)).1⟩

/-- C9: the domain of each aggregation mapping is exactly the set of known
category (resp. subcategory) names; every bucket holds exactly the summed
contribution of the month's rows resolving to its name (0 with no
activity); and a ledger row whose subcategory reference resolves to no row
(the one way a snapshot yields a name outside the initialized mapping)
changes no bucket total — it is silently dropped, and the fold is total, so
no error is raised. -/
theorem aggregation_domain_init_and_silent_drop (s : DB) (year month : Int) :
    (∀ n : String,
      ((getMonthlySpendingByCategory s year month) n).isSome
        ↔ n ∈ s.categories.map (·.name)) ∧
    (∀ n : String,
      ((getMonthlySpendingBySubcategory s year month) n).isSome
        ↔ n ∈ s.subcategories.map (·.name)) ∧
    (∀ c ∈ s.categories,
      ((getMonthlySpendingByCategory s year month) c.name).map (·.total)
        = some (categoryContribution s year month c.name)) ∧
    (∀ sub ∈ s.subcategories,
      ((getMonthlySpendingBySubcategory s year month) sub.name).map (·.total)
        = some (subcategoryContribution s year month sub.name)) ∧
    (∀ e : EntryRow, joinedSubcategory s e.subcategory_id = none → ∀ n : String,
      ((getMonthlySpendingByCategory { s with entries := e :: s.entries } year month) n).map
          (·.total)
        = ((getMonthlySpendingByCategory s year month) n).map (·.total) ∧
      ((getMonthlySpendingBySubcategory { s with entries := e :: s.entries } year month) n).map
          (·.total)
        = ((getMonthlySpendingBySubcategory s year month) n).map (·.total)) ∧
    (∀ t : TxnRow, joinedSubcategory s t.subcategory_id = none → ∀ n : String,
      ((getMonthlySpendingByCategory { s with transactions := t :: s.transactions } year month)
          n).map (·.total)
        = ((getMonthlySpendingByCategory s year month) n).map (·.total) ∧
      ((getMonthlySpendingBySubcategory { s with transactions := t :: s.transactions } year
          month) n).map (·.total)
        = ((getMonthlySpendingBySubcategory s year month) n).map (·.total)) := by
  refine ⟨byCategory_isSome s year month, bySubcategory_isSome s year month,
    fun c hc => byCategory_total_of_mem s year month c hc,
    fun sub hsub => bySubcategory_total_of_mem s year month sub hsub, ?_, ?_⟩
  · intro e he n
    constructor
    · rw [byCategory_total_char, byCategory_total_char]
      have hinit : initCatTotals (fetchCategories { s with entries := e :: s.entries }) n
          = initCatTotals (fetchCategories s) n := rfl
      rw [hinit, categoryContribution_dangling_entry s year month e he n]
    · rw [bySubcategory_total_char, bySubcategory_total_char]
      have hinit : initSubTotals (fetchSubcategories { s with entries := e :: s.entries })
            (categoryNameMap (fetchCategories { s with entries := e :: s.entries })) n
          = initSubTotals (fetchSubcategories s) (categoryNameMap (fetchCategories s)) n := rfl
      rw [hinit, subcategoryContribution_dangling_entry s year month e he n]
  · intro t ht n
    constructor
    · rw [byCategory_total_char, byCategory_total_char]
      have hinit : initCatTotals
            (fetchCategories { s with transactions := t :: s.transactions }) n
          = initCatTotals (fetchCategories s) n := rfl
      rw [hinit, categoryContribution_dangling_txn s year month t ht n]
    · rw [bySubcategory_total_char, bySubcategory_total_char]
      have hinit : initSubTotals
            (fetchSubcategories { s with transactions := t :: s.transactions })
            (categoryNameMap (fetchCategories { s with transactions := t :: s.transactions })) n
          = initSubTotals (fetchSubcategories s) (categoryNameMap (fetchCategories s)) n := rfl
      rw [hinit, subcategoryContribution_dangling_txn s year month t ht n]

/-- Witness for C9: the bucket identity and the dropping of a dangling
entry row, at the example store. -/
theorem aggregation_domain_init_and_silent_drop_witness :
    (⟨1, "Needs"⟩ : Category) ∈ sC4.categories ∧
    ((getMonthlySpendingByCategory sC4 2025 11) "Needs").map (·.total)
      = some (categoryContribution sC4 2025 11 "Needs") ∧
    joinedSubcategory sC4 77 = none ∧
    ((getMonthlySpendingByCategory { sC4 with entries := ⟨900, 100, 77, 3⟩ :: sC4.entries }
        2025 11) "Needs").map (·.total)
      = ((getMonthlySpendingByCategory sC4 2025 11) "Needs").map (·.total) :=
  ⟨by decide,
    (aggregation_domain_init_and_silent_drop sC4 2025 11).2.2.1 ⟨1, "Needs"⟩ (by decide),
    by decide,
    ((aggregation_domain_init_and_silent_drop sC4 2025 11).2.2.2.2.1 ⟨900, 100, 77, 3⟩
      (by decide) "Needs").1⟩

/-- C10: fetching the legacy entries of a `(year, month)` with no Month row
returns the empty list — `fetchEntriesForMonth` resolves the month with the
read-only `fetchMonth`, so no Month record is created (the function takes
the store and returns data only) — and aggregating such a legacy month
yields a zero total for every known category and subcategory. -/
theorem fetchEntries_unmaterialized_month_empty (s : DB) (year month : Int)
    (hno : ∀ mr ∈ s.months, ¬(mr.year = year ∧ mr.month = month)) :
    fetchMonth s year month = none ∧
    fetchEntriesForMonth s year month = [] ∧
    (useEntriesFor year month →
      (∀ c ∈ s.categories,
        ((getMonthlySpendingByCategory s year month) c.name).map (·.total) = some 0) ∧
      (∀ sub ∈ s.subcategories,
        ((getMonthlySpendingBySubcategory s year month) sub.name).map (·.total) = some 0)) := by
  have hfm : fetchMonth s year month = none := by
    simp only [fetchMonth]
    rw [List.find?_eq_none]
    intro mr hmr
    simp only [Bool.and_eq_true, beq_iff_eq]
    intro hcontra
    exact hno mr hmr ⟨hcontra.1, hcontra.2⟩
  refine ⟨hfm, ?_, ?_⟩
  · simp only [fetchEntriesForMonth, hfm]
  · intro h'
    have hme : monthEvents s year month = [] := by
      simp only [monthEvents, if_pos h', hfm]
    constructor
    · intro c hc
      rw [byCategory_total_of_mem s year month c hc]
      have hz : categoryContribution s year month c.name = 0 := by
        show keyedSum (eventCategoryName s) Prod.snd (monthEvents s year month) c.name = 0
        rw [hme]
        exact keyedSum_nil _ _ _
      rw [hz]
    · intro sub hsub
      rw [bySubcategory_total_of_mem s year month sub hsub]
      have hz : subcategoryContribution s year month sub.name = 0 := by
        show keyedSum (eventSubcategoryName s) Prod.snd (monthEvents s year month) sub.name = 0
        rw [hme]
        exact keyedSum_nil _ _ _
      rw [hz]

/-- Witness for C10: the example store has no Month row for 2024-03. -/
theorem fetchEntries_unmaterialized_month_empty_witness :
    (∀ mr ∈ sC4.months, ¬(mr.year = 2024 ∧ mr.month = 3)) ∧
    fetchEntriesForMonth sC4 2024 3 = [] :=
  ⟨by decide, (fetchEntries_unmaterialized_month_empty sC4 2024 3 (by decide)).2.1⟩

/-! ## Month registry lemmas and claims C2, C8 -/

theorem getOrCreateMonth_of_fetch_some (s : DB) (year month : Int) (mr : Month)
    (h : fetchMonth s year month = some mr) :
    getOrCreateMonth s year month = (mr, s) := by
  simp [getOrCreateMonth, h]

theorem getOrCreateMonth_of_fetch_none (s : DB) (year month : Int)
    (h : fetchMonth s year month = none) :
    getOrCreateMonth s year month
      = (⟨s.nextId, year, month, none⟩,
         { s with months := s.months ++ [⟨s.nextId, year, month, none⟩],
                  nextId := s.nextId + 1 }) := by
  simp [getOrCreateMonth, h, createMonth]

theorem getOrCreateMonth_frame (s : DB) (year month : Int) :
    (getOrCreateMonth s year month).2.categories = s.categories ∧
    (getOrCreateMonth s year month).2.subcategories = s.subcategories ∧
    (getOrCreateMonth s year month).2.month_budgets = s.month_budgets ∧
    (getOrCreateMonth s year month).2.entries = s.entries ∧
    (getOrCreateMonth s year month).2.transactions = s.transactions ∧
    (getOrCreateMonth s year month).2.visibility = s.visibility := by
  cases hm : fetchMonth s year month with
  | some mr => rw [getOrCreateMonth_of_fetch_some s year month mr hm]; exact ⟨rfl, rfl, rfl, rfl, rfl, rfl⟩
  | none => rw [getOrCreateMonth_of_fetch_none s year month hm]; exact ⟨rfl, rfl, rfl, rfl, rfl, rfl⟩

/-- C2: a month that already has at least one budget row (even all-zero
amounts) is authoritative: `getOrCreateBudgetsForMonth` returns exactly its
existing rows and leaves the store untouched — no row is created, modified,
or re-copied from any other month. -/
theorem budgets_existing_month_authoritative (s : DB) (year month : Int) (mr : Month)
    (hm : fetchMonth s year month = some mr)
    (hne : fetchBudgetsForMonth s mr.id ≠ []) :
    getOrCreateBudgetsForMonth s year month = (fetchBudgetsForMonth s mr.id, s) := by
  simp only [getOrCreateBudgetsForMonth, getOrCreateMonth, hm]
  rw [if_pos (List.length_pos.mpr hne)]

/-- C8 (amended): `getOrCreateMonth` is idempotent under sequential
re-resolution — the second call returns the row the first produced and
changes nothing. (The concurrent-duplication counterexample is separate.) -/
theorem resolveMonth_sequential_idempotent (s : DB) (year month : Int) :
    getOrCreateMonth (getOrCreateMonth s year month).2 year month
      = getOrCreateMonth s year month := by
  cases hm : fetchMonth s year month with
  | some mr =>
    rw [getOrCreateMonth_of_fetch_some s year month mr hm]
    exact getOrCreateMonth_of_fetch_some s year month mr hm
  | none =>
    rw [getOrCreateMonth_of_fetch_none s year month hm]
    have hfm2 : fetchMonth
        { s with months := s.months ++ [⟨s.nextId, year, month, none⟩],
                 nextId := s.nextId + 1 } year month
        = some ⟨s.nextId, year, month, none⟩ := by
      have hm' : s.months.find? (fun mr => mr.year == year && mr.month == month) = none := hm
      simp only [fetchMonth, List.find?_append, hm', Option.none_or]
      simp [List.find?_cons]
    rw [getOrCreateMonth_of_fetch_some _ year month _ hfm2]

/-- C8 counterexample: the creation path of `getOrCreateMonth` is a
separate fetch-then-insert, not an atomic insert-if-absent. Interleaving
two resolutions of (2026, 4) on an empty store — both fetches observe the
month absent, then both run `createMonth` — leaves two Month rows with
`(year = 2026, month = 4)`. -/
theorem resolveMonth_concurrent_duplicate_rows :
    fetchMonth dbEmpty 2026 4 = none ∧
    ((createMonth (createMonth dbEmpty 2026 4 none).2 2026 4 none).2.months.filter
      (fun mr => mr.year == 2026 && mr.month == 4)).length = 2 := by
  exact ⟨rfl, rfl⟩

/-! ## Visibility resolution (C6) -/

theorem buildVisibilityMap_foldl_char (visibility : List VisRow) :
    ∀ (subs : List Subcategory) (m0 : Nat → Option Bool) (i : Nat),
      (subs.foldl
        (fun m sub => fun i' =>
          if i' = sub.id then
            some (match visibility.find? (fun v => v.subcategory_id == sub.id) with
              | some v => v.is_visible
              | none => true)
          else m i') m0) i
        = (subs.reverse.find? (fun sub => sub.id == i)).elim (m0 i)
            (fun sub =>
              some (match visibility.find? (fun v => v.subcategory_id == sub.id) with
                | some v => v.is_visible
                | none => true))
  | [], m0, i => rfl
  | sub :: subs, m0, i => by
    rw [List.foldl_cons, buildVisibilityMap_foldl_char visibility subs _ i, List.reverse_cons,
      List.find?_append]
    cases hf : subs.reverse.find? (fun sub' => sub'.id == i) with
    | some sub' => simp
    | none =>
      by_cases hci : sub.id = i
      · simp [List.find?_cons, hci]
      · simp [List.find?_cons, hci, Ne.symm hci]

theorem buildVisibilityMap_char (subs : List Subcategory) (vis : List VisRow) (i : Nat) :
    buildVisibilityMap subs vis i
      = (subs.reverse.find? (fun sub => sub.id == i)).elim none
          (fun sub =>
            some (match vis.find? (fun v => v.subcategory_id == sub.id) with
              | some v => v.is_visible
              | none => true)) :=
  buildVisibilityMap_foldl_char vis subs (fun _ => none) i

theorem buildVisibilityMap_default (subs : List Subcategory) (vis : List VisRow)
    (sub : Subcategory) (hsub : sub ∈ subs)
    (hnone : ∀ v ∈ vis, v.subcategory_id ≠ sub.id) :
    buildVisibilityMap subs vis sub.id = some true := by
  rw [buildVisibilityMap_char]
  cases hf : subs.reverse.find? (fun sub' => sub'.id == sub.id) with
  | none =>
    rw [List.find?_eq_none] at hf
    exact absurd (by simp) (hf sub (List.mem_reverse.mpr hsub))
  | some sub' =>
    have hid : sub'.id = sub.id := by simpa using List.find?_some hf
    simp only [Option.elim_some]
    have hfind : vis.find? (fun v => v.subcategory_id == sub'.id) = none := by
      rw [List.find?_eq_none]
      intro v hv
      simp only [beq_iff_eq]
      rw [hid]
      exact hnone v hv
    rw [hfind]

/-- C6: a subcategory with no `month_subcategory_visibility` row anywhere
in history resolves as visible: the modal's visibility map yields `true`
for it, in every month. -/
theorem visibility_default_true (s : DB) (year month : Int) (sub : Subcategory)
    (hsub : sub ∈ s.subcategories)
    (hnone : ∀ v ∈ s.visibility, v.subcategory_id ≠ sub.id) :
    ((modalVisibilityMap s year month).1) sub.id = some true := by
  have hframe := getOrCreateMonth_frame s year month
  show buildVisibilityMap (fetchSubcategories (getOrCreateMonth s year month).2)
      (fetchAllSubcategoryVisibility (getOrCreateMonth s year month).2
        (getOrCreateMonth s year month).1.id) sub.id = some true
  apply buildVisibilityMap_default
  · have hsubs : fetchSubcategories (getOrCreateMonth s year month).2
        = List.insertionSort (fun a b => a.display_order ≤ b.display_order)
            s.subcategories := by
      simp only [fetchSubcategories, hframe.2.1]
    rw [hsubs]
    exact (List.perm_insertionSort _ _).mem_iff.mpr hsub
  · intro v hv
    have hv' : v ∈ s.visibility := by
      have hmem := List.mem_of_mem_filter hv
      rwa [hframe.2.2.2.2.2] at hmem
    exact hnone v hv'

/-- Witness for C6: the untouched subcategory 10 of the example store
resolves visible in 2026-05. -/
theorem visibility_default_true_witness :
    (⟨10, 1, "Rent", 1⟩ : Subcategory) ∈ sB.subcategories ∧
    ((modalVisibilityMap sB 2026 5).1) 10 = some true :=
  ⟨by decide, visibility_default_true sB 2026 5 ⟨10, 1, "Rent", 1⟩ (by decide) (by decide)⟩

/-- Witness for C2: month 2025-01 of the example store keeps its own
budget rows. -/
theorem budgets_existing_month_authoritative_witness :
    fetchMonth sB 2025 1 = some ⟨100, 2025, 1, none⟩ ∧
    fetchBudgetsForMonth sB 100 ≠ [] ∧
    getOrCreateBudgetsForMonth sB 2025 1 = (fetchBudgetsForMonth sB 100, sB) :=
  ⟨by decide, by decide,
    budgets_existing_month_authoritative sB 2025 1 ⟨100, 2025, 1, none⟩
      (by decide) (by decide)⟩

/-! ## New-subcategory propagation (C7) -/

theorem upsertVisRow_true_preserves (l : List VisRow) (r : VisRow)
    (hr : r.is_visible = true) (mid sid : Nat)
    (h : ∃ v ∈ l, v.month_id = mid ∧ v.subcategory_id = sid ∧ v.is_visible = true) :
    ∃ v ∈ upsertVisRow l r,
      v.month_id = mid ∧ v.subcategory_id = sid ∧ v.is_visible = true := by
  obtain ⟨v, hv, h1, h2, h3⟩ := h
  unfold upsertVisRow
  by_cases hany : (l.any (fun v' =>
      v'.month_id == r.month_id && v'.subcategory_id == r.subcategory_id)) = true
  · rw [if_pos hany]
    refine ⟨if v.month_id == r.month_id && v.subcategory_id == r.subcategory_id then
        { v with is_visible := r.is_visible } else v, List.mem_map_of_mem _ hv, ?_⟩
    by_cases hmatch : (v.month_id == r.month_id && v.subcategory_id == r.subcategory_id) = true
    · rw [if_pos hmatch]
      exact ⟨h1, h2, hr⟩
    · rw [if_neg hmatch]
      exact ⟨h1, h2, h3⟩
  · rw [if_neg hany]
    exact ⟨v, List.mem_append_left _ hv, h1, h2, h3⟩

theorem upsertVisRow_establishes (l : List VisRow) (r : VisRow) :
    ∃ v ∈ upsertVisRow l r,
      v.month_id = r.month_id ∧ v.subcategory_id = r.subcategory_id ∧
      v.is_visible = r.is_visible := by
  unfold upsertVisRow
  by_cases hany : (l.any (fun v' =>
      v'.month_id == r.month_id && v'.subcategory_id == r.subcategory_id)) = true
  · rw [if_pos hany]
    obtain ⟨v, hv, hmatch⟩ := List.any_eq_true.mp hany
    refine ⟨{ v with is_visible := r.is_visible }, ?_, ?_⟩
    · have hrw : ({ v with is_visible := r.is_visible } : VisRow)
          = (if v.month_id == r.month_id && v.subcategory_id == r.subcategory_id then
              { v with is_visible := r.is_visible } else v) := by
        rw [if_pos hmatch]
      rw [hrw]
      exact List.mem_map_of_mem _ hv
    · simp only [Bool.and_eq_true, beq_iff_eq] at hmatch
      exact ⟨hmatch.1, hmatch.2, rfl⟩
  · rw [if_neg hany]
    exact ⟨r, List.mem_append_right _ (by simp), rfl, rfl, rfl⟩

theorem upsertVisRow_other_month (l : List VisRow) (r : VisRow) (mid : Nat)
    (hne : r.month_id ≠ mid) :
    (upsertVisRow l r).filter (fun v => v.month_id == mid)
      = l.filter (fun v => v.month_id == mid) := by
  have hbeq : (r.month_id == mid) = false := beq_eq_false_iff_ne.mpr hne
  unfold upsertVisRow
  by_cases hany : (l.any (fun v' =>
      v'.month_id == r.month_id && v'.subcategory_id == r.subcategory_id)) = true
  · rw [if_pos hany]
    clear hany
    induction l with
    | nil => rfl
    | cons v l ih =>
      rw [List.map_cons, List.filter_cons, List.filter_cons]
      by_cases hmatch : (v.month_id == r.month_id && v.subcategory_id == r.subcategory_id) = true
      · have hv : v.month_id = r.month_id := by
          simp only [Bool.and_eq_true, beq_iff_eq] at hmatch
          exact hmatch.1
        have hnot : (v.month_id == mid) = false := by rw [hv]; exact hbeq
        rw [if_pos hmatch]
        have hnot2 : ((({ v with is_visible := r.is_visible } : VisRow)).month_id == mid)
            = false := hnot
        simp only [hnot, hnot2, Bool.false_eq_true, if_false]
        exact ih
      · rw [if_neg hmatch]
        by_cases hvm : (v.month_id == mid) = true
        · simp only [hvm, if_true]
          rw [ih]
        · simp only [hvm, Bool.false_eq_true, if_false]
          exact ih
  · rw [if_neg hany, List.filter_append]
    have hsing : (([r] : List VisRow)).filter (fun v => v.month_id == mid) = [] := by
      simp only [List.filter_cons, hbeq, Bool.false_eq_true, if_false]
      rfl
    rw [hsing, List.append_nil]

theorem upsertVisRow_mem_characterize (l : List VisRow) (r : VisRow) :
    ∀ v ∈ upsertVisRow l r,
      v ∈ l ∨ (v.month_id = r.month_id ∧ v.subcategory_id = r.subcategory_id ∧
        v.is_visible = r.is_visible) := by
  intro v hv
  unfold upsertVisRow at hv
  by_cases hany : (l.any (fun v' =>
      v'.month_id == r.month_id && v'.subcategory_id == r.subcategory_id)) = true
  · rw [if_pos hany] at hv
    obtain ⟨w, hw, hgw⟩ := List.mem_map.mp hv
    by_cases hmatch : (w.month_id == r.month_id && w.subcategory_id == r.subcategory_id) = true
    · right
      rw [if_pos hmatch] at hgw
      simp only [Bool.and_eq_true, beq_iff_eq] at hmatch
      rw [← hgw]
      exact ⟨hmatch.1, hmatch.2, rfl⟩
    · left
      rw [if_neg hmatch] at hgw
      rwa [hgw] at hw
  · rw [if_neg hany] at hv
    rcases List.mem_append.mp hv with h | h
    · left; exact h
    · right
      have hvr : v = r := by simpa using h
      rw [hvr]
      exact ⟨rfl, rfl, rfl⟩

theorem foldl_upsert_preserve :
    ∀ (records : List VisRow), (∀ rr ∈ records, rr.is_visible = true) →
      ∀ (l : List VisRow) (mid sid : Nat),
      (∃ v ∈ l, v.month_id = mid ∧ v.subcategory_id = sid ∧ v.is_visible = true) →
      ∃ v ∈ records.foldl upsertVisRow l,
        v.month_id = mid ∧ v.subcategory_id = sid ∧ v.is_visible = true
  | [], _, l, mid, sid, h => h
  | rr :: rest, hall, l, mid, sid, h => by
    rw [List.foldl_cons]
    exact foldl_upsert_preserve rest (fun x hx => hall x (List.mem_cons_of_mem rr hx))
      (upsertVisRow l rr) mid sid
      (upsertVisRow_true_preserves l rr (hall rr (List.mem_cons_self rr rest)) mid sid h)

theorem foldl_upsert_establish :
    ∀ (records : List VisRow), (∀ rr ∈ records, rr.is_visible = true) →
      ∀ (l : List VisRow) (r : VisRow), r ∈ records →
      ∃ v ∈ records.foldl upsertVisRow l,
        v.month_id = r.month_id ∧ v.subcategory_id = r.subcategory_id ∧ v.is_visible = true
  | [], _, l, r, hr => absurd hr (List.not_mem_nil r)
  | rr :: rest, hall, l, r, hr => by
    rw [List.foldl_cons]
    rcases List.mem_cons.mp hr with hreq | hmem
    · subst hreq
      have hest := upsertVisRow_establishes l r
      obtain ⟨v, hv, h1, h2, h3⟩ := hest
      exact foldl_upsert_preserve rest (fun x hx => hall x (List.mem_cons_of_mem r hx))
        (upsertVisRow l r) r.month_id r.subcategory_id
        ⟨v, hv, h1, h2, h3.trans (hall r (List.mem_cons_self r rest))⟩
    · exact foldl_upsert_establish rest (fun x hx => hall x (List.mem_cons_of_mem rr hx))
        (upsertVisRow l rr) r hmem

theorem foldl_upsert_other_month :
    ∀ (records : List VisRow) (l : List VisRow) (mid : Nat),
      (∀ rr ∈ records, rr.month_id ≠ mid) →
      (records.foldl upsertVisRow l).filter (fun v => v.month_id == mid)
        = l.filter (fun v => v.month_id == mid)
  | [], l, mid, _ => rfl
  | rr :: rest, l, mid, hall => by
    rw [List.foldl_cons,
      foldl_upsert_other_month rest (upsertVisRow l rr) mid
        (fun x hx => hall x (List.mem_cons_of_mem rr hx)),
      upsertVisRow_other_month l rr mid (hall rr (List.mem_cons_self rr rest))]

theorem foldl_upsert_mem_characterize :
    ∀ (records : List VisRow) (l : List VisRow),
      ∀ v ∈ records.foldl upsertVisRow l,
        v ∈ l ∨ ∃ rr ∈ records,
          v.month_id = rr.month_id ∧ v.subcategory_id = rr.subcategory_id ∧
          v.is_visible = rr.is_visible
  | [], l, v, hv => Or.inl hv
  | rr :: rest, l, v, hv => by
    rw [List.foldl_cons] at hv
    rcases foldl_upsert_mem_characterize rest (upsertVisRow l rr) v hv with h | ⟨rr', hrr', h⟩
    · rcases upsertVisRow_mem_characterize l rr v h with h' | h'
      · exact Or.inl h'
      · exact Or.inr ⟨rr, List.mem_cons_self rr rest, h'⟩
    · exact Or.inr ⟨rr', List.mem_cons_of_mem rr hrr', h⟩

/-- C7: `addSubcategoryToCurrentAndFutureMonths`, run for a subcategory
when the clock reads the creation month, upserts a
`{monthId, subcategoryId, isVisible := true}` row for every materialized
Month whose `(year, month)` is at or after the creation month, changes no
visibility row of any strictly earlier month, and adds nothing else: every
row of the resulting table is an old row or a visible-true row for the new
subcategory in one of the at-or-after months. -/
theorem propagate_new_subcategory (s : DB) (sid : Nat) (cy cm : Int)
    (hids : (s.months.map (·.id)).Nodup) :
    (∀ mr ∈ s.months, (mr.year > cy ∨ (mr.year = cy ∧ mr.month ≥ cm)) →
      ∃ v ∈ (addSubcategoryToCurrentAndFutureMonths s sid cy cm).2.visibility,
        v.month_id = mr.id ∧ v.subcategory_id = sid ∧ v.is_visible = true) ∧
    (∀ mr ∈ s.months, ¬(mr.year > cy ∨ (mr.year = cy ∧ mr.month ≥ cm)) →
      (addSubcategoryToCurrentAndFutureMonths s sid cy cm).2.visibility.filter
          (fun v => v.month_id == mr.id)
        = s.visibility.filter (fun v => v.month_id == mr.id)) ∧
    (∀ v ∈ (addSubcategoryToCurrentAndFutureMonths s sid cy cm).2.visibility,
      v ∈ s.visibility ∨
        (v.subcategory_id = sid ∧ v.is_visible = true ∧
          ∃ mr ∈ s.months, (mr.year > cy ∨ (mr.year = cy ∧ mr.month ≥ cm)) ∧
            v.month_id = mr.id)) := by
  by_cases hemp : ((s.months.filter (fun m =>
      decide (m.year > cy ∨ (m.year = cy ∧ m.month ≥ cm)))).isEmpty) = true
  · have hstate : (addSubcategoryToCurrentAndFutureMonths s sid cy cm).2 = s := by
      simp only [addSubcategoryToCurrentAndFutureMonths]
      rw [if_pos hemp]
    rw [List.isEmpty_iff] at hemp
    refine ⟨?_, ?_, ?_⟩
    · intro mr hmr hcond
      have hmem : mr ∈ s.months.filter (fun m =>
          decide (m.year > cy ∨ (m.year = cy ∧ m.month ≥ cm))) :=
        List.mem_filter.mpr ⟨hmr, by simpa using hcond⟩
      rw [hemp] at hmem
      exact absurd hmem (List.not_mem_nil mr)
    · intro mr _ _
      rw [hstate]
    · intro v hv
      rw [hstate] at hv
      exact Or.inl hv
  · have hstate : (addSubcategoryToCurrentAndFutureMonths s sid cy cm).2
        = { s with visibility :=
            (((s.months.filter (fun m =>
                decide (m.year > cy ∨ (m.year = cy ∧ m.month ≥ cm)))).map
              (fun m => (⟨m.id, sid, true⟩ : VisRow))).foldl upsertVisRow s.visibility) } := by
      simp only [addSubcategoryToCurrentAndFutureMonths]
      rw [if_neg hemp]
    have hall : ∀ rr ∈ ((s.months.filter (fun m =>
        decide (m.year > cy ∨ (m.year = cy ∧ m.month ≥ cm)))).map
          (fun m => (⟨m.id, sid, true⟩ : VisRow))), rr.is_visible = true := by
      intro rr hrr
      obtain ⟨m', _, hval⟩ := List.mem_map.mp hrr
      rw [← hval]
    refine ⟨?_, ?_, ?_⟩
    · intro mr hmr hcond
      have hmem : mr ∈ s.months.filter (fun m =>
          decide (m.year > cy ∨ (m.year = cy ∧ m.month ≥ cm))) :=
        List.mem_filter.mpr ⟨hmr, by simpa using hcond⟩
      have hrec := List.mem_map_of_mem (fun m => (⟨m.id, sid, true⟩ : VisRow)) hmem
      have hest := foldl_upsert_establish _ hall s.visibility _ hrec
      rw [hstate]
      exact hest
    · intro mr hmr hcond
      rw [hstate]
      refine foldl_upsert_other_month _ s.visibility mr.id ?_
      intro rr hrr
      obtain ⟨m', hm', hval⟩ := List.mem_map.mp hrr
      obtain ⟨hm'mem, hm'cond⟩ := List.mem_filter.mp hm'
      rw [← hval]
      show m'.id ≠ mr.id
      intro hideq
      have : m' = mr := List.inj_on_of_nodup_map hids hm'mem hmr hideq
      rw [this] at hm'cond
      exact hcond (by simpa using hm'cond)
    · intro v hv
      rw [hstate] at hv
      rcases foldl_upsert_mem_characterize _ s.visibility v hv with h | ⟨rr, hrr, h1, h2, h3⟩
      · exact Or.inl h
      · right
        obtain ⟨m', hm', hval⟩ := List.mem_map.mp hrr
        obtain ⟨hm'mem, hm'cond⟩ := List.mem_filter.mp hm'
        rw [← hval] at h1 h2 h3
        exact ⟨h2, h3, m', hm'mem, by simpa using hm'cond, h1⟩

/-- Witness for C7: propagating subcategory 11 at clock 2025-01 in the
example store reaches month 2025-01 and leaves 2024-12 untouched. -/
theorem propagate_new_subcategory_witness :
    (sB.months.map (·.id)).Nodup ∧
    (∃ v ∈ (addSubcategoryToCurrentAndFutureMonths sB 11 2025 1).2.visibility,
      v.month_id = 100 ∧ v.subcategory_id = 11 ∧ v.is_visible = true) ∧
    (addSubcategoryToCurrentAndFutureMonths sB 11 2025 1).2.visibility.filter
        (fun v => v.month_id == 90)
      = sB.visibility.filter (fun v => v.month_id == 90) := by
  refine ⟨by decide, ?_, ?_⟩
  · exact (propagate_new_subcategory sB 11 2025 1 (by decide)).1 ⟨100, 2025, 1, none⟩
      (by decide) (by decide)
  · exact (propagate_new_subcategory sB 11 2025 1 (by decide)).2.1 ⟨90, 2024, 12, none⟩
      (by decide) (by decide)

/-! ## Budget rollover machinery (C1, C3) -/

theorem insertedRows_proj (toId : Nat) :
    ∀ (nextId : Nat) (l : List MonthBudget),
      (insertedRows nextId toId l).map (fun b => (b.month_id, b.subcategory_id, b.budget_amount))
        = l.map (fun b => (toId, b.subcategory_id, b.budget_amount))
  | _, [] => rfl
  | nextId, b :: bs => by
    rw [insertedRows, List.map_cons, List.map_cons, insertedRows_proj toId (nextId + 1) bs]

theorem filterMap_congr_mem {α β : Type} (f g : α → Option β) :
    ∀ (l : List α), (∀ a ∈ l, f a = g a) → l.filterMap f = l.filterMap g
  | [], _ => rfl
  | a :: l, h => by
    rw [List.filterMap_cons, List.filterMap_cons, h a (List.mem_cons_self a l),
      filterMap_congr_mem f g l (fun x hx => h x (List.mem_cons_of_mem a hx))]

theorem bestMonth_some (b c : Month) :
    bestMonth (some b) c = if monthKeyLt b c then some c else some b := rfl

theorem foldlMax_spec :
    ∀ (l : List Month) (b : Month),
      ∃ src, l.foldl bestMonth (some b) = some src
        ∧ (src = b ∨ src ∈ l) ∧ ¬monthKeyLt src b ∧ ∀ x ∈ l, ¬monthKeyLt src x
  | [], b =>
    ⟨b, rfl, Or.inl rfl, by unfold monthKeyLt; omega, by intro x hx; cases hx⟩
  | c :: l, b => by
    rw [List.foldl_cons, bestMonth_some]
    by_cases hbc : monthKeyLt b c
    · rw [if_pos hbc]
      obtain ⟨src, heq, hmem, hnb, hall⟩ := foldlMax_spec l c
      refine ⟨src, heq, ?_, ?_, ?_⟩
      · rcases hmem with h | h
        · exact Or.inr (h ▸ List.mem_cons_self c l)
        · exact Or.inr (List.mem_cons_of_mem c h)
      · unfold monthKeyLt at hnb hbc ⊢
        omega
      · intro x hx
        rcases List.mem_cons.mp hx with h | h
        · rw [h]; exact hnb
        · exact hall x h
    · rw [if_neg hbc]
      obtain ⟨src, heq, hmem, hnb, hall⟩ := foldlMax_spec l b
      refine ⟨src, heq, ?_, hnb, ?_⟩
      · rcases hmem with h | h
        · exact Or.inl h
        · exact Or.inr (List.mem_cons_of_mem c h)
      · intro x hx
        rcases List.mem_cons.mp hx with h | h
        · rw [h]
          unfold monthKeyLt at hnb hbc ⊢
          omega
        · exact hall x h

theorem getMostRecent_spec (s : DB)
    (hids : (s.months.map (·.id)).Nodup)
    (href : ∀ b ∈ s.month_budgets, ∃ mr ∈ s.months, mr.id = b.month_id)
    (hne : s.month_budgets ≠ []) :
    ∃ src, getMostRecentMonthWithBudgets s = some src ∧ src ∈ s.months ∧
      fetchBudgetsForMonth s src.id ≠ [] ∧
      ∀ mr ∈ s.months, fetchBudgetsForMonth s mr.id ≠ [] → monthKeyLe mr src := by
  have hjoined_mem : ∀ x ∈ s.month_budgets.filterMap
      (fun b => s.months.find? (fun mr => mr.id == b.month_id)),
      x ∈ s.months ∧ fetchBudgetsForMonth s x.id ≠ [] := by
    intro x hx
    obtain ⟨b, hb, hfind⟩ := List.mem_filterMap.mp hx
    refine ⟨List.mem_of_find?_eq_some hfind, ?_⟩
    have hpx : x.id = b.month_id := by simpa using List.find?_some hfind
    have hbmem : b ∈ fetchBudgetsForMonth s x.id := by
      refine List.mem_filter.mpr ⟨hb, ?_⟩
      simp [hpx]
    exact List.ne_nil_of_mem hbmem
  have hmem_joined : ∀ mr ∈ s.months, fetchBudgetsForMonth s mr.id ≠ [] →
      mr ∈ s.month_budgets.filterMap
        (fun b => s.months.find? (fun mr' => mr'.id == b.month_id)) := by
    intro mr hmr hb
    obtain ⟨b, hbmem⟩ := List.exists_mem_of_ne_nil _ hb
    have hb2 := List.mem_filter.mp hbmem
    have hbid : b.month_id = mr.id := beq_iff_eq.mp hb2.2
    have hsome : (s.months.find? (fun m => m.id == b.month_id)).isSome := by
      rw [List.find?_isSome]
      exact ⟨mr, hmr, by simp [hbid]⟩
    obtain ⟨mr', hmr'⟩ := Option.isSome_iff_exists.mp hsome
    have hmr'id : mr'.id = b.month_id := by simpa using List.find?_some hmr'
    have hmr'mem : mr' ∈ s.months := List.mem_of_find?_eq_some hmr'
    have heq : mr' = mr :=
      List.inj_on_of_nodup_map hids hmr'mem hmr (by rw [hmr'id, hbid])
    rw [← heq]
    exact List.mem_filterMap.mpr ⟨b, hb2.1, hmr'⟩
  obtain ⟨b0, hb0⟩ := List.exists_mem_of_ne_nil s.month_budgets hne
  obtain ⟨mr0, hmr0, hid0⟩ := href b0 hb0
  have hfind0 : (s.months.find? (fun mr => mr.id == b0.month_id)).isSome := by
    rw [List.find?_isSome]
    exact ⟨mr0, hmr0, by simp [hid0]⟩
  obtain ⟨m0, hm0⟩ := Option.isSome_iff_exists.mp hfind0
  have hm0mem : m0 ∈ s.month_budgets.filterMap
      (fun b => s.months.find? (fun mr => mr.id == b.month_id)) :=
    List.mem_filterMap.mpr ⟨b0, hb0, hm0⟩
  cases hjl : s.month_budgets.filterMap
      (fun b => s.months.find? (fun mr => mr.id == b.month_id)) with
  | nil =>
    rw [hjl] at hm0mem
    exact absurd hm0mem (List.not_mem_nil m0)
  | cons j0 jrest =>
    obtain ⟨src, heq, hmem, hnb, hall⟩ := foldlMax_spec jrest j0
    have hres : getMostRecentMonthWithBudgets s = some src := by
      show (s.month_budgets.filterMap
          (fun b => s.months.find? (fun mr => mr.id == b.month_id))).foldl bestMonth none
        = some src
      rw [hjl, List.foldl_cons]
      exact heq
    have hsrc_joined : src ∈ s.month_budgets.filterMap
        (fun b => s.months.find? (fun mr => mr.id == b.month_id)) := by
      rw [hjl]
      rcases hmem with h | h
      · rw [h]; exact List.mem_cons_self j0 jrest
      · exact List.mem_cons_of_mem j0 h
    obtain ⟨hsrcM, hsrcB⟩ := hjoined_mem src hsrc_joined
    refine ⟨src, hres, hsrcM, hsrcB, ?_⟩
    intro mr hmr hb
    have hmrj := hmem_joined mr hmr hb
    rw [hjl] at hmrj
    rcases List.mem_cons.mp hmrj with h | h
    · rw [h]
      unfold monthKeyLt at hnb
      unfold monthKeyLe
      omega
    · have := hall mr h
      unfold monthKeyLt at this
      unfold monthKeyLe
      omega

theorem budgets_rollover_char (s : DB) (year month : Int)
    (hWF : MonthsWF s)
    (hEmpty : ∀ mr ∈ s.months, mr.year = year ∧ mr.month = month →
      fetchBudgetsForMonth s mr.id = []) :
    (s.month_budgets = [] →
      (getOrCreateBudgetsForMonth s year month).1 = [] ∧
      (getOrCreateBudgetsForMonth s year month).2.month_budgets = s.month_budgets) ∧
    (s.month_budgets ≠ [] →
      ∃ src ∈ s.months,
        fetchBudgetsForMonth s src.id ≠ [] ∧
        (∀ mr ∈ s.months, fetchBudgetsForMonth s mr.id ≠ [] → monthKeyLe mr src) ∧
        (getOrCreateBudgetsForMonth s year month).1.map
            (fun b => (b.month_id, b.subcategory_id, b.budget_amount))
          = (fetchBudgetsForMonth s src.id).map
              (fun b => ((getOrCreateMonth s year month).1.id, b.subcategory_id,
                b.budget_amount)) ∧
        (getOrCreateBudgetsForMonth s year month).2.month_budgets
          = s.month_budgets ++ (getOrCreateBudgetsForMonth s year month).1) := by
  obtain ⟨hkeys, hids, hlt, href⟩ := hWF
  have hbud : (getOrCreateMonth s year month).2.month_budgets = s.month_budgets :=
    (getOrCreateMonth_frame s year month).2.2.1
  have hfb : ∀ x : Nat, fetchBudgetsForMonth (getOrCreateMonth s year month).2 x
      = fetchBudgetsForMonth s x := by
    intro x
    show (getOrCreateMonth s year month).2.month_budgets.filter (fun b => b.month_id == x)
      = s.month_budgets.filter (fun b => b.month_id == x)
    rw [hbud]
  have htgt : fetchBudgetsForMonth s (getOrCreateMonth s year month).1.id = [] := by
    cases hm : fetchMonth s year month with
    | some mr =>
      have h1 : (getOrCreateMonth s year month).1 = mr := by
        rw [getOrCreateMonth_of_fetch_some s year month mr hm]
      rw [h1]
      have hmem : mr ∈ s.months := List.mem_of_find?_eq_some hm
      have hp := List.find?_some hm
      simp only [Bool.and_eq_true, beq_iff_eq] at hp
      exact hEmpty mr hmem ⟨hp.1, hp.2⟩
    | none =>
      have h1 : (getOrCreateMonth s year month).1 = ⟨s.nextId, year, month, none⟩ := by
        rw [getOrCreateMonth_of_fetch_none s year month hm]
      rw [h1]
      show s.month_budgets.filter (fun b => b.month_id == s.nextId) = []
      rw [List.filter_eq_nil_iff]
      intro b hb
      obtain ⟨mr, hmr, hid⟩ := href b hb
      have hlt' := hlt mr hmr
      simp only [beq_iff_eq]
      omega
  have hcond : ¬ ((fetchBudgetsForMonth (getOrCreateMonth s year month).2
      (getOrCreateMonth s year month).1.id).length > 0) := by
    rw [hfb, htgt]
    simp
  have hmain : getOrCreateBudgetsForMonth s year month
      = match getMostRecentMonthWithBudgets (getOrCreateMonth s year month).2 with
        | some m => copyBudgets (getOrCreateMonth s year month).2 m.id
            (getOrCreateMonth s year month).1.id
        | none => ([], (getOrCreateMonth s year month).2) := by
    simp only [getOrCreateBudgetsForMonth]
    rw [if_neg hcond]
  constructor
  · intro hb0
    have hnone : getMostRecentMonthWithBudgets (getOrCreateMonth s year month).2 = none := by
      show ((getOrCreateMonth s year month).2.month_budgets.filterMap
          (fun b => (getOrCreateMonth s year month).2.months.find?
            (fun mr => mr.id == b.month_id))).foldl bestMonth none = none
      rw [hbud, hb0]
      rfl
    constructor
    · rw [hmain, hnone]
    · rw [hmain, hnone, hb0]
      exact hbud.trans hb0
  · intro hb0
    have hmost : getMostRecentMonthWithBudgets (getOrCreateMonth s year month).2
        = getMostRecentMonthWithBudgets s := by
      cases hm : fetchMonth s year month with
      | some mr => rw [getOrCreateMonth_of_fetch_some s year month mr hm]
      | none =>
        rw [getOrCreateMonth_of_fetch_none s year month hm]
        show ((s.month_budgets.filterMap
            (fun b => (s.months ++ [(⟨s.nextId, year, month, none⟩ : Month)]).find?
              (fun mr => mr.id == b.month_id))).foldl bestMonth none)
          = getMostRecentMonthWithBudgets s
        have hcongr : s.month_budgets.filterMap
            (fun b => (s.months ++ [(⟨s.nextId, year, month, none⟩ : Month)]).find?
              (fun mr => mr.id == b.month_id))
            = s.month_budgets.filterMap
                (fun b => s.months.find? (fun mr => mr.id == b.month_id)) := by
          apply filterMap_congr_mem
          intro b hb
          obtain ⟨mr, hmr, hid⟩ := href b hb
          have hsome : (s.months.find? (fun m => m.id == b.month_id)).isSome := by
            rw [List.find?_isSome]
            exact ⟨mr, hmr, by simp [hid]⟩
          rw [List.find?_append]
          obtain ⟨m', hm'⟩ := Option.isSome_iff_exists.mp hsome
          rw [hm']
          rfl
        rw [hcongr]
        rfl
    obtain ⟨src, hsrcEq, hsrcM, hsrcB, hmax⟩ := getMostRecent_spec s hids href hb0
    refine ⟨src, hsrcM, hsrcB, hmax, ?_, ?_⟩
    · rw [hmain, hmost, hsrcEq]
      show (insertedRows (getOrCreateMonth s year month).2.nextId
          (getOrCreateMonth s year month).1.id
          (fetchBudgetsForMonth (getOrCreateMonth s year month).2 src.id)).map
            (fun b => (b.month_id, b.subcategory_id, b.budget_amount))
        = (fetchBudgetsForMonth s src.id).map
            (fun b => ((getOrCreateMonth s year month).1.id, b.subcategory_id,
              b.budget_amount))
      rw [hfb src.id, insertedRows_proj]
    · rw [hmain, hmost, hsrcEq]
      show (getOrCreateMonth s year month).2.month_budgets
          ++ insertedRows (getOrCreateMonth s year month).2.nextId
              (getOrCreateMonth s year month).1.id
              (fetchBudgetsForMonth (getOrCreateMonth s year month).2 src.id)
        = s.month_budgets
          ++ insertedRows (getOrCreateMonth s year month).2.nextId
              (getOrCreateMonth s year month).1.id
              (fetchBudgetsForMonth (getOrCreateMonth s year month).2 src.id)
      rw [hbud]

/-- C1: for a month with zero budget rows, when some budget row exists
anywhere, `getOrCreateBudgetsForMonth` copies every budget row of the month
with the maximum `(year, month)` among all months having at least one
budget row — the whole budget table is scanned, months later than the
target included — into the target month (same subcategory and amount, the
target month's id) and returns exactly those copies, appending them to the
budget table. -/
theorem budgets_rollover_from_max_month (s : DB) (year month : Int)
    (hWF : MonthsWF s)
    (hEmpty : ∀ mr ∈ s.months, mr.year = year ∧ mr.month = month →
      fetchBudgetsForMonth s mr.id = [])
    (hne : s.month_budgets ≠ []) :
    ∃ src ∈ s.months,
      fetchBudgetsForMonth s src.id ≠ [] ∧
      (∀ mr ∈ s.months, fetchBudgetsForMonth s mr.id ≠ [] → monthKeyLe mr src) ∧
      (getOrCreateBudgetsForMonth s year month).1.map
          (fun b => (b.month_id, b.subcategory_id, b.budget_amount))
        = (fetchBudgetsForMonth s src.id).map
            (fun b => ((getOrCreateMonth s year month).1.id, b.subcategory_id,
              b.budget_amount)) ∧
      (getOrCreateBudgetsForMonth s year month).2.month_budgets
        = s.month_budgets ++ (getOrCreateBudgetsForMonth s year month).1 :=
  (budgets_rollover_char s year month hWF hEmpty).2 hne

/-- Witness for C1: resolving the empty month 2026-02 of the example store
copies the budgets of the maximal budgeted month. -/
theorem budgets_rollover_from_max_month_witness :
    MonthsWF sB ∧ sB.month_budgets ≠ [] ∧
    (∃ src ∈ sB.months,
      fetchBudgetsForMonth sB src.id ≠ [] ∧
      (∀ mr ∈ sB.months, fetchBudgetsForMonth sB mr.id ≠ [] → monthKeyLe mr src) ∧
      (getOrCreateBudgetsForMonth sB 2026 2).1.map
          (fun b => (b.month_id, b.subcategory_id, b.budget_amount))
        = (fetchBudgetsForMonth sB src.id).map
            (fun b => ((getOrCreateMonth sB 2026 2).1.id, b.subcategory_id,
              b.budget_amount)) ∧
      (getOrCreateBudgetsForMonth sB 2026 2).2.month_budgets
        = sB.month_budgets ++ (getOrCreateBudgetsForMonth sB 2026 2).1) :=
  ⟨by unfold MonthsWF; decide, by decide,
    budgets_rollover_from_max_month sB 2026 2 (by unfold MonthsWF; decide) (by decide)
      (by decide)⟩

/-- C3 counterexample: resolving 2024-01 (zero budget rows, and no month
strictly earlier than it has any budget row) returns a nonempty copy —
taken from the later month 2025-01 — instead of the empty list or a copy
of an earlier month's budgets. The copies bear the fresh target month id
300 and the source month's subcategories 10 and 11. -/
theorem budgets_rollover_uses_later_month :
    (∀ mr ∈ sB.months, ¬(mr.year = 2024 ∧ mr.month = 1)) ∧
    (∀ mr ∈ sB.months, (mr.year < 2024 ∨ (mr.year = 2024 ∧ mr.month < 1)) →
      fetchBudgetsForMonth sB mr.id = []) ∧
    (getOrCreateBudgetsForMonth sB 2024 1).1 ≠ [] ∧
    (getOrCreateBudgetsForMonth sB 2024 1).1.map (fun b => (b.month_id, b.subcategory_id))
      = [(300, 10), (300, 11)] :=
  ⟨by decide, by decide, by decide, by decide⟩

/-- C3 (amended): for a month with zero budget rows,
`getOrCreateBudgetsForMonth` returns the empty list when the budget table
is empty, and otherwise a copy of the budgets of the month with the
greatest `(year, month)` among all months having at least one budget row —
scanning the whole table, later months included, not only earlier ones. -/
theorem budgets_rollover_whole_table (s : DB) (year month : Int)
    (hWF : MonthsWF s)
    (hEmpty : ∀ mr ∈ s.months, mr.year = year ∧ mr.month = month →
      fetchBudgetsForMonth s mr.id = []) :
    (s.month_budgets = [] → (getOrCreateBudgetsForMonth s year month).1 = []) ∧
    (s.month_budgets ≠ [] →
      ∃ src ∈ s.months,
        fetchBudgetsForMonth s src.id ≠ [] ∧
        (∀ mr ∈ s.months, fetchBudgetsForMonth s mr.id ≠ [] → monthKeyLe mr src) ∧
        (getOrCreateBudgetsForMonth s year month).1.map
            (fun b => (b.month_id, b.subcategory_id, b.budget_amount))
          = (fetchBudgetsForMonth s src.id).map
              (fun b => ((getOrCreateMonth s year month).1.id, b.subcategory_id,
                b.budget_amount))) := by
  refine ⟨fun h => ((budgets_rollover_char s year month hWF hEmpty).1 h).1, fun h => ?_⟩
  obtain ⟨src, hsrcM, hsrcB, hmax, hproj, _⟩ :=
    (budgets_rollover_char s year month hWF hEmpty).2 h
  exact ⟨src, hsrcM, hsrcB, hmax, hproj⟩

/-- Witness for C3 (amended): the clause instantiated at the 2024-01
resolution of the example store. -/
theorem budgets_rollover_whole_table_witness :
    MonthsWF sB ∧ sB.month_budgets ≠ [] ∧
    (∃ src ∈ sB.months,
      fetchBudgetsForMonth sB src.id ≠ [] ∧
      (∀ mr ∈ sB.months, fetchBudgetsForMonth sB mr.id ≠ [] → monthKeyLe mr src) ∧
      (getOrCreateBudgetsForMonth sB 2024 1).1.map
          (fun b => (b.month_id, b.subcategory_id, b.budget_amount))
        = (fetchBudgetsForMonth sB src.id).map
            (fun b => ((getOrCreateMonth sB 2024 1).1.id, b.subcategory_id,
              b.budget_amount))) :=
  ⟨by unfold MonthsWF; decide, by decide,
    (budgets_rollover_whole_table sB 2024 1 (by unfold MonthsWF; decide) (by decide)).2
      (by decide)⟩

/-! ## Category totals decompose into subcategory totals (C5) -/

theorem sum_map_add_q {α : Type} (f g : α → ℚ) :
    ∀ (l : List α), (l.map (fun x => f x + g x)).sum = (l.map f).sum + (l.map g).sum
  | [] => by simp
  | a :: l => by
    rw [List.map_cons, List.map_cons, List.map_cons, List.sum_cons, List.sum_cons,
      List.sum_cons, sum_map_add_q f g l]
    ring

theorem sum_map_eq_single {α : Type} (f : α → ℚ) :
    ∀ (l : List α) (x : α), x ∈ l → l.Nodup → (∀ y ∈ l, y ≠ x → f y = 0) →
      (l.map f).sum = f x
  | [], x, hx, _, _ => absurd hx (List.not_mem_nil x)
  | a :: l, x, hx, hnd, h0 => by
    rw [List.map_cons, List.sum_cons]
    rcases List.mem_cons.mp hx with h | h
    · have hzero : ∀ q ∈ l.map f, q = 0 := by
        intro q hq
        obtain ⟨y, hy, hv⟩ := List.mem_map.mp hq
        rw [← hv]
        refine h0 y (List.mem_cons_of_mem a hy) ?_
        intro heq
        exact (List.nodup_cons.mp hnd).1 (h ▸ heq ▸ hy)
      rw [List.sum_eq_zero hzero, add_zero, h]
    · have ha : f a = 0 := by
        refine h0 a (List.mem_cons_self a l) ?_
        intro heq
        exact (List.nodup_cons.mp hnd).1 (heq ▸ h)
      rw [ha, zero_add]
      exact sum_map_eq_single f l x h (List.nodup_cons.mp hnd).2
        (fun y hy hne => h0 y (List.mem_cons_of_mem a hy) hne)

theorem event_decompose (s : DB) (hWF : TaxonomyWF s) (c : Category)
    (hc : c ∈ s.categories) (p : Nat × ℚ) :
    (if eventCategoryName s p = some c.name ∧ c.name ≠ "" then p.2 else 0)
      = ((s.subcategories.filter (fun sub => sub.category_id == c.id)).map
          (fun sub =>
            if eventSubcategoryName s p = some sub.name ∧ sub.name ≠ "" then p.2 else 0)).sum := by
  obtain ⟨hcatNames, hcatIds, hcatNe, hsubNames, hsubNe⟩ := hWF
  have hsubNodup : s.subcategories.Nodup := List.Nodup.of_map _ hsubNames
  have hfilNodup : (s.subcategories.filter (fun sub => sub.category_id == c.id)).Nodup :=
    hsubNodup.filter _
  cases hjs : joinedSubcategory s p.1 with
  | none =>
    have hL : ¬(eventCategoryName s p = some c.name ∧ c.name ≠ "") := by
      simp [eventCategoryName, joinedCategory, hjs]
    rw [if_neg hL]
    symm
    apply List.sum_eq_zero
    intro q hq
    obtain ⟨sub, hsubmem, hval⟩ := List.mem_map.mp hq
    rw [← hval, if_neg]
    simp [eventSubcategoryName, hjs]
  | some sub0 =>
    have hsub0mem : sub0 ∈ s.subcategories := List.mem_of_find?_eq_some hjs
    have hsubkey : eventSubcategoryName s p = some sub0.name := by
      simp [eventSubcategoryName, hjs]
    have hname_inj : ∀ sub ∈ s.subcategories, sub.name = sub0.name → sub = sub0 :=
      fun sub hs hn => List.inj_on_of_nodup_map hsubNames hs hsub0mem hn
    cases hjc : s.categories.find? (fun c' => c'.id == sub0.category_id) with
    | none =>
      have hL : ¬(eventCategoryName s p = some c.name ∧ c.name ≠ "") := by
        simp [eventCategoryName, joinedCategory, hjs, hjc]
      rw [if_neg hL]
      symm
      apply List.sum_eq_zero
      intro q hq
      obtain ⟨sub, hsubmem, hval⟩ := List.mem_map.mp hq
      rw [← hval]
      obtain ⟨hsmem, hscat⟩ := List.mem_filter.mp hsubmem
      rw [if_neg]
      rintro ⟨hn, _⟩
      rw [hsubkey] at hn
      have hss : sub = sub0 := hname_inj sub hsmem (Option.some_injective _ hn).symm
      rw [List.find?_eq_none] at hjc
      refine hjc c hc ?_
      have : sub0.category_id = c.id := by
        rw [← hss]
        exact beq_iff_eq.mp hscat
      simp [this]
    | some c' =>
      have hc'mem : c' ∈ s.categories := List.mem_of_find?_eq_some hjc
      have hc'id : c'.id = sub0.category_id := by simpa using List.find?_some hjc
      have hcatkey : eventCategoryName s p = some c'.name := by
        simp [eventCategoryName, joinedCategory, hjs, hjc]
      by_cases hcid : sub0.category_id = c.id
      · have hcc : c' = c :=
          List.inj_on_of_nodup_map hcatIds hc'mem hc (by rw [hc'id, hcid])
        have hL : eventCategoryName s p = some c.name ∧ c.name ≠ "" := by
          rw [hcatkey, hcc]
          exact ⟨rfl, hcatNe c hc⟩
        rw [if_pos hL]
        have hsub0fil : sub0 ∈ s.subcategories.filter (fun sub => sub.category_id == c.id) :=
          List.mem_filter.mpr ⟨hsub0mem, by simp [hcid]⟩
        have := sum_map_eq_single
          (fun sub => if eventSubcategoryName s p = some sub.name ∧ sub.name ≠ "" then p.2 else 0)
          (s.subcategories.filter (fun sub => sub.category_id == c.id)) sub0 hsub0fil hfilNodup
          ?_
        · rw [this]
          beta_reduce
          rw [if_pos ⟨hsubkey, hsubNe sub0 hsub0mem⟩]
        · intro y hy hne
          beta_reduce
          rw [if_neg]
          rintro ⟨hn, _⟩
          rw [hsubkey] at hn
          exact hne (hname_inj y (List.mem_of_mem_filter hy) (Option.some_injective _ hn).symm)
      · have hL : ¬(eventCategoryName s p = some c.name ∧ c.name ≠ "") := by
          rintro ⟨hn, _⟩
          rw [hcatkey] at hn
          have hcc : c' = c :=
            List.inj_on_of_nodup_map hcatNames hc'mem hc (Option.some_injective _ hn)
          exact hcid (by rw [← hc'id, hcc])
        rw [if_neg hL]
        symm
        apply List.sum_eq_zero
        intro q hq
        obtain ⟨sub, hsubmem, hval⟩ := List.mem_map.mp hq
        rw [← hval]
        obtain ⟨hsmem, hscat⟩ := List.mem_filter.mp hsubmem
        rw [if_neg]
        rintro ⟨hn, _⟩
        rw [hsubkey] at hn
        have hss : sub = sub0 := hname_inj sub hsmem (Option.some_injective _ hn).symm
        refine hcid ?_
        rw [← hss]
        exact beq_iff_eq.mp hscat

theorem contribution_decompose (s : DB) (hWF : TaxonomyWF s) (c : Category)
    (hc : c ∈ s.categories) :
    ∀ evs : List (Nat × ℚ),
      keyedSum (eventCategoryName s) Prod.snd evs c.name
        = ((s.subcategories.filter (fun sub => sub.category_id == c.id)).map
            (fun sub => keyedSum (eventSubcategoryName s) Prod.snd evs sub.name)).sum
  | [] => by
    rw [keyedSum_nil]
    symm
    apply List.sum_eq_zero
    intro q hq
    obtain ⟨sub, _, hval⟩ := List.mem_map.mp hq
    rw [← hval, keyedSum_nil]
  | p :: evs => by
    rw [keyedSum_cons]
    have hmapeq : (s.subcategories.filter (fun sub => sub.category_id == c.id)).map
        (fun sub => keyedSum (eventSubcategoryName s) Prod.snd (p :: evs) sub.name)
        = (s.subcategories.filter (fun sub => sub.category_id == c.id)).map
            (fun sub =>
              (if eventSubcategoryName s p = some sub.name ∧ sub.name ≠ "" then p.2 else 0)
                + keyedSum (eventSubcategoryName s) Prod.snd evs sub.name) := by
      apply List.map_congr_left
      intro sub _
      rw [keyedSum_cons]
    rw [hmapeq, sum_map_add_q, contribution_decompose s hWF c hc evs,
      event_decompose s hWF c hc p]

/-- C5 (amended): under a well-formed taxonomy — distinct, nonempty
category and subcategory names and distinct category ids — every
category's aggregated total equals the sum of the aggregated totals of the
subcategories belonging to it, in the same month. -/
theorem category_total_eq_sum_of_subcategories (s : DB) (year month : Int)
    (hWF : TaxonomyWF s) (c : Category) (hc : c ∈ s.categories) :
    ((getMonthlySpendingByCategory s year month) c.name).map (·.total)
      = some (((s.subcategories.filter (fun sub => sub.category_id == c.id)).map
          (fun sub => subcategoryTotalValue s year month sub.name)).sum) := by
  rw [byCategory_total_of_mem s year month c hc]
  have hmapeq : (s.subcategories.filter (fun sub => sub.category_id == c.id)).map
      (fun sub => subcategoryTotalValue s year month sub.name)
      = (s.subcategories.filter (fun sub => sub.category_id == c.id)).map
          (fun sub => subcategoryContribution s year month sub.name) := by
    apply List.map_congr_left
    intro sub hsub
    have hsmem : sub ∈ s.subcategories := List.mem_of_mem_filter hsub
    show (((getMonthlySpendingBySubcategory s year month) sub.name).map (·.total)).getD 0
      = subcategoryContribution s year month sub.name
    rw [bySubcategory_total_of_mem s year month sub hsmem]
    rfl
  rw [hmapeq]
  exact congrArg some (contribution_decompose s hWF c hc (monthEvents s year month))

/-- Witness for C5 (amended): the "Needs" category of the example store. -/
theorem category_total_eq_sum_of_subcategories_witness :
    TaxonomyWF sC4 ∧ (⟨1, "Needs"⟩ : Category) ∈ sC4.categories ∧
    ((getMonthlySpendingByCategory sC4 2025 11) "Needs").map (·.total)
      = some (((sC4.subcategories.filter (fun sub => sub.category_id == 1)).map
          (fun sub => subcategoryTotalValue sC4 2025 11 sub.name)).sum) :=
  ⟨by unfold TaxonomyWF; decide, by decide,
    category_total_eq_sum_of_subcategories sC4 2025 11 (by unfold TaxonomyWF; decide)
      ⟨1, "Needs"⟩ (by decide)⟩

/-- C5 counterexample: with two subcategories both named "X" — one in
category "A" (id 1), one in category "B" (id 2) — and one legacy entry of
10 on the "A"-subcategory, the category total of "B" is 0 but the
name-keyed subcategory mapping credits the shared bucket "X" (attributed
to "B") with 10, so the identity fails for category "B". -/
theorem category_total_name_collision :
    ((getMonthlySpendingByCategory s5 2025 1) "B").map (·.total)
      ≠ some (((s5.subcategories.filter (fun sub => sub.category_id == 2)).map
          (fun sub => subcategoryTotalValue s5 2025 1 sub.name)).sum) := by
  have hL : ((getMonthlySpendingByCategory s5 2025 1) "B").map (·.total) = some 0 := by
    norm_num [getMonthlySpendingByCategory, s5, fetchCategories,
      fetchEntriesForMonth, fetchMonth, useEntriesFor, initCatTotals,
      addCatAmount, joinedSubcategory, joinedCategory, List.insertionSort, List.orderedInsert,
      List.find?, List.filter, strLeB]
    simp +decide
  have hR : (((s5.subcategories.filter (fun sub => sub.category_id == 2)).map
      (fun sub => subcategoryTotalValue s5 2025 1 sub.name)).sum) = 10 := by
    norm_num [subcategoryTotalValue, getMonthlySpendingBySubcategory, s5, fetchSubcategories,
      fetchCategories, fetchEntriesForMonth, fetchMonth, useEntriesFor, initSubTotals,
      categoryNameMap, addSubAmount, joinedSubcategory, joinedCategory, List.insertionSort,
      List.orderedInsert, List.find?, List.filter, strLeB]
    simp +decide
  rw [hL, hR]
  simp
